import Mathlib

/-!
Verification of the multisnake server core (src/server.rs).

The Rust source is shallowly embedded: machine integers become Nat with
explicit bounds or truncation where overflow matters, grids become total
functions from flat indices to values (the source uses flat Vec indexing
with the same index arithmetic), and the fallible or unboundedly looping
operations return Option driven by explicit fuel.
-/

namespace Multisnake

/-- Client-to-server opcode for a direction change (src/server.rs line 18). -/
def MAGIC_NET_CHANGE_DIRECTION : Nat := 2

/-- Client-to-server opcode for toggling fast mode (src/server.rs line 23). -/
def MAGIC_NET_TOGGLE_FAST : Nat := 8

/-- Client-to-server opcode for a clean disconnect (src/server.rs line 24). -/
def MAGIC_NET_EXIT : Nat := 9

/-- The direction a snake is facing (src/server.rs lines 93-98). -/
inductive Direction
  | Left
  | Up
  | Right
  | Down
deriving DecidableEq, Repr

/-- The numeric value of a Direction (its discriminant as in the Rust enum). -/
def Direction.toByte : Direction → Nat
  | .Left => 0
  | .Up => 1
  | .Right => 2
  | .Down => 3

/-- Direction::is_opposite_of (src/server.rs line 102): (self as i8 + 2) % 4 == other.
All discriminants lie in 0..3, so i8 arithmetic never overflows and Nat models it. -/
def Direction.is_opposite_of (a b : Direction) : Bool :=
  (a.toByte + 2) % 4 == b.toByte

/-- Direction::from_byte (src/server.rs line 106): 0, 1, 2 map to Left, Up, Right,
and every other byte maps to Down (the Rust match arm is 3 | _). -/
def Direction.from_byte (byte : Nat) : Direction :=
  match byte with
  | 0 => .Left
  | 1 => .Up
  | 2 => .Right
  | _ => .Down

/-- Direction::to_vector (src/server.rs line 115). -/
def Direction.to_vector : Direction → Int × Int
  | .Left => (-1, 0)
  | .Right => (1, 0)
  | .Down => (0, 1)
  | .Up => (0, -1)

/-- calc_length (src/server.rs lines 947-949): (score as f32).sqrt().ceil() as usize.
Every u16 score is exactly representable in f32, f32 square root is correctly
rounded, and for 0 <= s <= 65535 the rounded root is never displaced across an
integer (the gap between sqrt s and the nearest integer is at least 1/512 while
the ulp there is at most 2^-15), so the whole expression computes the exact
integer ceiling of the real square root, embedded here over Nat. -/
def calc_length (score : Nat) : Nat :=
  if Nat.sqrt score * Nat.sqrt score = score then Nat.sqrt score else Nat.sqrt score + 1

/-- The loop body of score_to_foods (src/server.rs lines 937-942), recursing on the
number of sub-cells still to fill: with d sub-cells remaining and n food units left,
push ceil(n / d) and continue with the remainder.  The f32 division plus ceil in the
source computes this exact Nat ceiling division for all reachable values (quotients
stay below 256, far above f32 rounding error at that magnitude). -/
def foodsGreedy : Nat → Nat → List Nat
  | 0, _ => []
  | k + 1, n =>
    let amount := (n + k) / (k + 1)
    amount :: foodsGreedy k (n - amount)

/-- score_to_foods (src/server.rs lines 932-944): distribute score food units over
calc_length(score) * 4 sub-cells by the ceiling-division greedy. -/
def score_to_foods (score : Nat) : List Nat :=
  foodsGreedy (calc_length score * 4) score

/-- The world (src/server.rs lines 49-52): a flat snake grid of W*H cells holding
owner ids (0 = empty) and a flat food grid of 2W*2H sub-cells holding amounts.
The source uses Vec with flat index arithmetic; here each grid is a total
function from the flat index. -/
structure World where
  snake_parts : Nat → Nat
  foods : Nat → Nat

/-- Server::sfield_index (src/server.rs line 257): y * W + x. -/
def sfield_index (W : Nat) (c : Nat × Nat) : Nat :=
  c.2 * W + c.1

/-- Server::ffield_index (src/server.rs line 261): v * (W * 2) + u. -/
def ffield_index (W : Nat) (c : Nat × Nat) : Nat :=
  c.2 * (W * 2) + c.1

/-- Server::sf_to_ff_index (src/server.rs lines 265-276): the four food sub-cell
indices under snake cell (x, y). -/
def sf_to_ff_index (W : Nat) (c : Nat × Nat) : List Nat :=
  [0 + 2 * c.1 + (4 * c.2 + 0) * W,
   1 + 2 * c.1 + (4 * c.2 + 0) * W,
   0 + 2 * c.1 + (4 * c.2 + 2) * W,
   1 + 2 * c.1 + (4 * c.2 + 2) * W]

/-- Server::ff_to_sf_index (src/server.rs line 278): u / 2 + (v / 2) * W. -/
def ff_to_sf_index (W : Nat) (c : Nat × Nat) : Nat :=
  c.1 / 2 + (c.2 / 2) * W

/-- A food-grid position is in range when it lies in [0, 2W) x [0, 2H). -/
def ffInRange (W H : Nat) (c : Nat × Nat) : Prop :=
  c.1 < W * 2 ∧ c.2 < H * 2

instance (W H : Nat) (c : Nat × Nat) : Decidable (ffInRange W H c) := by
  unfold ffInRange; infer_instance

/-- A snake-grid position is in range when it lies in [0, W) x [0, H). -/
def sfInRange (W H : Nat) (c : Nat × Nat) : Prop :=
  c.1 < W ∧ c.2 < H

instance (W H : Nat) (c : Nat × Nat) : Decidable (sfInRange W H c) := by
  unfold sfInRange; infer_instance

/-- Total amount of food outstanding in the food grid. -/
def totalFood (W H : Nat) (f : Nat → Nat) : Nat :=
  ∑ i ∈ Finset.range (W * 2 * (H * 2)), f i

/-- The food-snake disjointness invariant (spec section 3): wherever the snake grid
holds a nonzero id, all four food sub-cells beneath that cell hold amount 0. -/
def FoodSnakeInv (W H : Nat) (w : World) : Prop :=
  ∀ x y a b : Nat, x < W → y < H → a < 2 → b < 2 →
    w.snake_parts (sfield_index W (x, y)) ≠ 0 →
    w.foods (ffield_index W (2 * x + a, 2 * y + b)) = 0

/-- The validity test inside Server::add_food's loop (src/server.rs lines 238-239):
the snake cell under the food position is empty and the sub-cell holds less than 255. -/
def food_pos_valid (W : Nat) (w : World) (pos : Nat × Nat) : Bool :=
  (w.snake_parts (ff_to_sf_index W pos) == 0) && (w.foods (ffield_index W pos) < 255)

/-- The position advance inside Server::add_food's loop (src/server.rs lines 246-250):
increment u; once u / (W * 2) reaches 1, reset u to 0 and step v modulo H * 2. -/
def ff_advance (W H : Nat) (pos : Nat × Nat) : Nat × Nat :=
  if (pos.1 + 1) / (W * 2) = 1 then (0, (pos.2 + 1) % (H * 2))
  else (pos.1 + 1, pos.2)

/-- The search loop of Server::add_food (src/server.rs lines 236-251).  The source
loops without bound; the embedding gives it explicit fuel.  Fuel W*2*(H*2) covers a
full cycle of the raster walk, so the fueled loop finds a valid sub-cell exactly when
the source loop terminates. -/
def add_food_walk (W H : Nat) (w : World) : Nat → Nat × Nat → Option (Nat × Nat)
  | 0, _ => none
  | fuel + 1, pos =>
    if food_pos_valid W w pos then some pos
    else add_food_walk W H w fuel (ff_advance W H pos)

/-- Server::add_food (src/server.rs lines 230-255): walk from the start position to a
valid sub-cell and increment its amount by 1. -/
def add_food (W H : Nat) (w : World) (start : Nat × Nat) : Option World :=
  match add_food_walk W H w (W * 2 * (H * 2)) start with
  | none => none
  | some pos =>
    some { w with
      foods := Function.update w.foods (ffield_index W pos)
        (w.foods (ffield_index W pos) + 1) }

/-- Recover a food-grid position from its flat index. -/
def ff_pos_of_index (W : Nat) (i : Nat) : Nat × Nat :=
  (i % (W * 2), i / (W * 2))

/-- The total slack still available for food placement: over every food sub-cell
whose underlying snake cell is empty, how much the amount may still grow before
saturating at 255.  Server::add_food terminates whenever this is positive and
consumes exactly one unit of it. -/
def spareCapacity (W H : Nat) (w : World) : Nat :=
  ∑ i ∈ Finset.range (W * 2 * (H * 2)),
    (if w.snake_parts (ff_to_sf_index W (ff_pos_of_index W i)) = 0
     then 255 - w.foods i else 0)

/-- The leftover-food loop of Server::remove_snake (src/server.rs lines 652-654):
call add_food the given number of times, with each call's random start supplied by
the stream of start positions. -/
def add_food_times (W H : Nat) (starts : Nat → Nat × Nat) : Nat → World → Option World
  | 0, w => some w
  | n + 1, w =>
    match add_food W H w (starts n) with
    | none => none
    | some w1 => add_food_times W H starts n w1

/-- The inner write of Server::remove_snake (src/server.rs lines 639-643): assign the
next food amounts to the listed food indices, one index at a time. -/
def set_foods_list (foods : Nat → Nat) : List Nat → List Nat → Nat → Nat
  | [], _ => foods
  | _ :: _, [] => foods
  | i :: idxs, v :: vals => set_foods_list (Function.update foods i v) idxs vals

/-- The first loop of Server::remove_snake (src/server.rs lines 636-650): for each of
the given parts, write the next four food amounts under it and clear its snake cell. -/
def remove_snake_foods (W : Nat) : World → List (Nat × Nat) → List Nat → World
  | w, [], _ => w
  | w, p :: ps, amounts =>
    remove_snake_foods W
      { snake_parts := Function.update w.snake_parts (sfield_index W p) 0,
        foods := set_foods_list w.foods (sf_to_ff_index W p) (amounts.take 4) }
      ps (amounts.drop 4)

/-- The left-over clearing loop of Server::remove_snake (src/server.rs lines 657-660):
clear the snake grid at each remaining part. -/
def clear_parts (W : Nat) (sp : Nat → Nat) (ps : List (Nat × Nat)) : Nat → Nat :=
  ps.foldl (fun acc p => Function.update acc (sfield_index W p) 0) sp

/-- Server::remove_snake (src/server.rs lines 626-664): drop score_to_foods(score)
under the first calc_length(score) parts (four amounts per part, clearing each snake
cell), place the left-over food units through add_food, and clear the snake grid at
all remaining parts.  The starts stream supplies each add_food call's random start. -/
def remove_snake (W H : Nat) (starts : Nat → Nat × Nat) (w : World) (score : Nat)
    (parts : List (Nat × Nat)) : Option World :=
  match add_food_times W H starts
      ((score_to_foods score).drop (4 * (parts.take (calc_length score)).length)).sum
      (remove_snake_foods W w (parts.take (calc_length score)) (score_to_foods score)) with
  | none => none
  | some w2 =>
    some { w2 with
      snake_parts := clear_parts W w2.snake_parts (parts.drop (calc_length score)) }

/-- A player record (src/server.rs lines 73-89).  parts runs tail-first; the head is
the last element (VecDeque with push_back for the head, pop_front for the tail). -/
structure Player where
  nickname : String
  direction : Direction
  last_direction : Direction
  parts : List (Nat × Nat)
  kills : Nat
  score : Nat
  fast_mode : Bool

/-- One message dispatch of Server::read_players_input (src/server.rs lines 603-620):
a 2-byte CHANGE_DIRECTION frame updates direction unless the decoded direction is
opposite of last_direction; a 1-byte TOGGLE_FAST frame flips fast_mode unless the
score is 0.  The two tests are sequential in the source but mutually exclusive by
frame length.  (EXIT frames and read errors remove the player instead and are
handled by remove_snake.) -/
def process_message (p : Player) (bytes : List Nat) : Player :=
  let p1 :=
    if bytes.length = 2 ∧ bytes.headI = MAGIC_NET_CHANGE_DIRECTION then
      let new_direction := Direction.from_byte (bytes.getD 1 0)
      if new_direction.is_opposite_of p.last_direction then p
      else { p with direction := new_direction }
    else p
  if bytes.length = 1 ∧ bytes.headI = MAGIC_NET_TOGGLE_FAST then
    if p1.score = 0 then p1
    else { p1 with fast_mode := !p1.fast_mode }
  else p1

/-- The whole drain for one connection during a tick (src/server.rs lines 569-621):
process every complete frame that arrived, in order. -/
def drain_input (p : Player) (msgs : List (List Nat)) : Player :=
  msgs.foldl process_message p

/-- The fast-mode cutoff at the top of the per-snake movement step
(src/server.rs lines 681-683): force fast_mode off when the score is below 1. -/
def fast_off_check (p : Player) : Player :=
  if p.fast_mode && decide (p.score < 1) then { p with fast_mode := false } else p

/-- The last_direction update inside each movement sub-step (src/server.rs lines
690-694).  Direction is fixed during the tick, so applying it once models the one or
two sub-steps of the source loop. -/
def fold_last_direction (p : Player) : Player :=
  if p.direction ≠ p.last_direction then { p with last_direction := p.direction } else p

/-- The fast-mode score burn after the sub-step loop (src/server.rs lines 710-712):
subtract 1 score when in fast mode, once per tick. -/
def burn_score (p : Player) : Player :=
  if p.fast_mode then { p with score := p.score - 1 } else p

/-- The per-snake control part of Server::move_snakes (src/server.rs lines 679-712)
in source order: fast-mode cutoff, sub-step count (2 in fast mode, else 1),
last_direction fold, score burn.  Returns the updated player and the sub-step
count.  The head claims the sub-step loop inserts into headposition_to_check are
modeled by move_intent_claims below. -/
def move_snake_ctl (p : Player) : Player × Nat :=
  (burn_score (fold_last_direction (fast_off_check p)),
   if (fast_off_check p).fast_mode then 2 else 1)

/-- The state threaded through the resolution phase of Server::move_snakes:
the world, the player map and the list of crashed snakes collected so far. -/
structure ResState where
  world : World
  players : Nat → Player
  crashed : List Nat

/-- One step of the food-eating loop of the no-crash branch (src/server.rs lines
771-774): add the sub-cell's amount to the mover's score and zero the sub-cell. -/
def eat_step (pid : Nat) (acc : ResState) (j : Nat) : ResState :=
  { acc with
    players := Function.update acc.players pid
      { acc.players pid with score := (acc.players pid).score + acc.world.foods j },
    world := { acc.world with foods := Function.update acc.world.foods j 0 } }

/-- The food-eating inner loop of the no-crash branch (src/server.rs lines 771-774):
for each of the four sub-cells under the entered cell, add its amount to the mover's
score and zero it. -/
def eat_at (W : Nat) (st : ResState) (pid : Nat) (field : Nat × Nat) : ResState :=
  (sf_to_ff_index W field).foldl (eat_step pid) st

/-- One entry of the resolution phase of Server::move_snakes (src/server.rs lines
746-778): if two or more snakes claim the cell they all crash with no kill credit;
if the sole claimed cell is already occupied the claimant crashes and the occupier
gets a kill unless it is the claimant itself; otherwise the mover eats the four food
sub-cells, stamps the snake grid and pushes the new head. -/
def resolve_cell (W : Nat) (st : ResState) (field : Nat × Nat) (ids : List Nat) :
    ResState :=
  if 1 < ids.length then
    { st with crashed := st.crashed ++ ids }
  else if st.world.snake_parts (sfield_index W field) ≠ 0 then
    let foreign_id := st.world.snake_parts (sfield_index W field)
    { st with
      crashed := st.crashed ++ [ids.headI],
      players :=
        if foreign_id ≠ ids.headI then
          Function.update st.players foreign_id
            { st.players foreign_id with kills := (st.players foreign_id).kills + 1 }
        else st.players }
  else
    let st1 := eat_at W st ids.headI field
    { st1 with
      world := { st1.world with
        snake_parts := Function.update st1.world.snake_parts (sfield_index W field)
          ids.headI },
      players := Function.update st1.players ids.headI
        { st1.players ids.headI with
          parts := (st1.players ids.headI).parts ++ [field] } }

/-- One tail-trim step of Server::move_snakes (src/server.rs lines 716-728): the
popped tail cell is cleared in the snake grid. -/
def trim_tail_cell (W : Nat) (w : World) (pos : Nat × Nat) : World :=
  { w with snake_parts := Function.update w.snake_parts (sfield_index W pos) 0 }

/-- The fast-mode food drop of Server::move_snakes (src/server.rs lines 731-736):
write amount 1 into one of the four food sub-cells (chosen by r mod 4) beneath the
popped tail cell. -/
def drop_food_on_tail (W : Nat) (w : World) (pos : Nat × Nat) (r : Nat) : World :=
  { w with foods := Function.update w.foods ((sf_to_ff_index W pos).getD (r % 4) 0) 1 }

/-- One food sub-cell absorption during spawn (src/server.rs lines 489-492):
credit the amount to the eaten counter and zero the sub-cell. -/
def spawn_eat_step (ac : World × Nat) (i : Nat) : World × Nat :=
  ({ ac.1 with foods := Function.update ac.1.foods i 0 }, ac.2 + ac.1.foods i)

/-- One spawn cell commit (src/server.rs lines 488-493): absorb all four food
sub-cells under the part, then stamp the snake grid with the new id. -/
def spawn_part_step (W : Nat) (id : Nat) (acc : World × Nat) (p : Nat × Nat) :
    World × Nat :=
  let inner := (sf_to_ff_index W p).foldl spawn_eat_step acc
  ({ inner.1 with
    snake_parts := Function.update inner.1.snake_parts (sfield_index W p) id },
    inner.2)

/-- The commit part of Server::generate_snake_parts (src/server.rs lines 486-494):
for each of the three spawn cells, absorb all food under it into the initial score
and stamp the snake grid with the new id. -/
def spawn_eat_parts (W : Nat) (id : Nat) (parts3 : List (Nat × Nat)) (w : World) :
    World × Nat :=
  parts3.foldl (spawn_part_step W id) (w, 0)

/-- Stream read error kinds relevant to the embedded reader. -/
inductive ErrKind
  | wouldBlock
deriving DecidableEq, Repr

/-- Modelled from the std Read::read_exact contract on a non-blocking TcpStream
(read_from_stream's only primitive, not code of this repository): read_exact loops
over read() until the buffer is full; when fewer than n bytes are available it
consumes all of them into the discarded buffer and then surfaces WouldBlock, so the
bytes read so far are lost to the caller.  The stream is the list of currently
available bytes; the second component is what remains available afterwards. -/
def read_exact (n : Nat) (s : List Nat) : Except ErrKind (List Nat) × List Nat :=
  if n ≤ s.length then (Except.ok (s.take n), s.drop n)
  else (Except.error ErrKind.wouldBlock, [])

/-- read_from_stream (src/server.rs lines 905-919): read a 1-byte length prefix,
then exactly that many payload bytes. -/
def read_from_stream (s : List Nat) : Except ErrKind (List Nat) × List Nat :=
  match read_exact 1 s with
  | (Except.error e, s1) => (Except.error e, s1)
  | (Except.ok sz, s1) =>
    match read_exact sz.headI s1 with
    | (Except.error e, s2) => (Except.error e, s2)
    | (Except.ok bytes, s2) => (Except.ok bytes, s2)

/-- The tail-trim pop count per tick (src/server.rs lines 716-718):
((parts.len() - 3) as u16).saturating_sub(calc_length(score) as u16).  Nat truncated
subtraction models saturating_sub and % 65536 models the u16 cast; the usize
subtraction len - 3 is taken on reachable states, which always have at least
3 parts. -/
def tail_trim_count (len score : Nat) : Nat :=
  (len - 3) % 65536 - calc_length score % 65536

/-- The prospective head computation of one movement sub-step (src/server.rs lines
697-704): take parts.back() (modeled by getLastD; reachable snakes always have at
least 3 parts), add the direction vector and wrap toroidally.  The i32 arithmetic
operates on a value that is nonnegative and below 2*W (resp. 2*H), where Rust's
truncated % agrees with Int.emod and the cast back to u16 is exact. -/
def new_head_pos (W H : Nat) (p : Player) : Nat × Nat :=
  let back := p.parts.getLastD (0, 0)
  let v := p.direction.to_vector
  ((((back.1 : Int) + v.1 + (W : Int)) % (W : Int)).toNat,
   (((back.2 : Int) + v.2 + (H : Int)) % (H : Int)).toNat)

/-- The movement sub-step loop of Server::move_snakes (src/server.rs lines
689-707) for one snake: each sub-step folds direction into last_direction,
recomputes the prospective head from parts.back() — parts is NOT advanced between
sub-steps; the head push happens only later, in the resolution phase — and records
the claimed cell.  Returns the claimed cells in order. -/
def sub_step_claims (W H : Nat) : Nat → Player → List (Nat × Nat)
  | 0, _ => []
  | n + 1, p =>
    let p1 := fold_last_direction p
    new_head_pos W H p1 :: sub_step_claims W H n p1

/-- The head claims one snake inserts into headposition_to_check during the intent
phase (src/server.rs lines 678-707): after the fast-mode cutoff, one claim per
sub-step (2 in fast mode, else 1). -/
def move_intent_claims (W H : Nat) (p : Player) : List (Nat × Nat) :=
  sub_step_claims W H (move_snake_ctl p).2 (fast_off_check p)

/-- The death loop of Server::move_snakes (src/server.rs lines 781-791): for every
crashed id in order, look up the client stream — get_mut(&id).unwrap() panics when
the id has already been removed, modeled as none — then remove the snake and drop
the stream.  streams is the list of ids with a live stream; the world and player
mutations of remove_snake are modeled separately and omitted here, since on a
duplicated id the panicking lookup precedes them. -/
def death_loop (streams : List Nat) : List Nat → Option (List Nat)
  | [] => some streams
  | id :: rest =>
    if id ∈ streams then death_loop (streams.erase id) rest
    else none

lemma calc_length_le_sq (s : Nat) : s ≤ calc_length s * calc_length s := by
  unfold calc_length
  split
  · omega
  · exact le_of_lt (Nat.lt_succ_sqrt s)

lemma calc_length_le_of_le_sq (s k : Nat) (h : s ≤ k * k) : calc_length s ≤ k := by
  unfold calc_length
  split
  · calc Nat.sqrt s ≤ Nat.sqrt (k * k) := Nat.sqrt_le_sqrt h
    _ = k := Nat.sqrt_eq k
  · rename_i hns
    by_contra hlt
    push_neg at hlt
    have hk : k ≤ Nat.sqrt s := by omega
    have h1 : k * k ≤ Nat.sqrt s * Nat.sqrt s := Nat.mul_le_mul hk hk
    have h2 : Nat.sqrt s * Nat.sqrt s ≤ s := Nat.sqrt_le s
    have : Nat.sqrt s * Nat.sqrt s = s := by omega
    exact hns this

lemma calc_length_pos (s : Nat) (hs : 1 ≤ s) : 1 ≤ calc_length s := by
  unfold calc_length
  split
  · rename_i hsq
    rcases Nat.eq_zero_or_pos (Nat.sqrt s) with h | h
    · rw [h] at hsq; omega
    · exact h
  · omega

lemma length_foodsGreedy (k n : Nat) : (foodsGreedy k n).length = k := by
  induction k generalizing n with
  | zero => rfl
  | succ k ih => simp [foodsGreedy, ih]

lemma foodsGreedy_head_le (k n : Nat) : (n + k) / (k + 1) ≤ n := by
  rcases Nat.eq_zero_or_pos n with hn | hn
  · subst hn
    simp [Nat.div_eq_of_lt (by omega : k < k + 1)]
  · by_contra h
    push_neg at h
    have h2 : n + 1 ≤ (n + k) / (k + 1) := h
    have h3 : (n + 1) * (k + 1) ≤ n + k := (Nat.le_div_iff_mul_le (by omega)).mp h2
    nlinarith

lemma sum_foodsGreedy (k n : Nat) (hk : 1 ≤ k) : (foodsGreedy k n).sum = n := by
  induction k generalizing n with
  | zero => omega
  | succ k ih =>
    rcases Nat.eq_zero_or_pos k with h0 | hpos
    · subst h0
      simp [foodsGreedy]
    · have hle := foodsGreedy_head_le k n
      simp only [foodsGreedy, List.sum_cons]
      rw [ih _ hpos]
      omega

lemma foodsGreedy_mem_le (k n M : Nat) (hn : n ≤ k * M) :
    ∀ a ∈ foodsGreedy k n, a ≤ M := by
  induction k generalizing n with
  | zero => intro a ha; simp [foodsGreedy] at ha
  | succ k ih =>
    intro a ha
    simp only [foodsGreedy, List.mem_cons] at ha
    have hhead : (n + k) / (k + 1) ≤ M := by
      have : n + k < (M + 1) * (k + 1) := by nlinarith
      have := (Nat.div_lt_iff_lt_mul (by omega : 0 < k + 1)).mpr
        (by omega : n + k < (M + 1) * (k + 1))
      omega
    rcases ha with rfl | ha
    · exact hhead
    · have hceil : n ≤ (k + 1) * ((n + k) / (k + 1)) := by
        have hmod := Nat.div_add_mod (n + k) (k + 1)
        have hlt : (n + k) % (k + 1) < k + 1 := Nat.mod_lt _ (by omega)
        omega
      have htail : n - (n + k) / (k + 1) ≤ k * M := by
        have hexp : (k + 1) * ((n + k) / (k + 1)) =
            k * ((n + k) / (k + 1)) + (n + k) / (k + 1) := by ring
        have h1 : n - (n + k) / (k + 1) ≤ k * ((n + k) / (k + 1)) := by omega
        calc n - (n + k) / (k + 1) ≤ k * ((n + k) / (k + 1)) := h1
          _ ≤ k * M := Nat.mul_le_mul_left k hhead
      exact ih (n - (n + k) / (k + 1)) htail a ha

lemma calc_length_le_256 (s : Nat) (hs : s < 65536) : calc_length s ≤ 256 :=
  calc_length_le_of_le_sq s 256 (by omega)

lemma score_to_foods_mem_le (s : Nat) (hs : s < 65536) :
    ∀ a ∈ score_to_foods s, a ≤ 64 := by
  have hL := calc_length_le_sq s
  have h256 := calc_length_le_256 s hs
  apply foodsGreedy_mem_le
  calc s ≤ calc_length s * calc_length s := hL
    _ ≤ calc_length s * 256 := Nat.mul_le_mul_left _ h256
    _ = calc_length s * 4 * 64 := by ring

lemma score_to_foods_sum (s : Nat) : (score_to_foods s).sum = s := by
  rcases Nat.eq_zero_or_pos s with rfl | hs
  · rfl
  · exact sum_foodsGreedy _ s (by have := calc_length_pos s hs; omega)

lemma score_to_foods_length (s : Nat) :
    (score_to_foods s).length = calc_length s * 4 :=
  length_foodsGreedy _ s

lemma sf_to_ff_index_eq (W : Nat) (x y : Nat) :
    sf_to_ff_index W (x, y) =
      [ffield_index W (2 * x, 2 * y), ffield_index W (2 * x + 1, 2 * y),
       ffield_index W (2 * x, 2 * y + 1), ffield_index W (2 * x + 1, 2 * y + 1)] := by
  simp only [sf_to_ff_index, ffield_index]
  norm_num
  constructor
  · ring
  constructor
  · ring
  constructor
  · ring
  · ring

lemma mem_sf_to_ff_index (W : Nat) (x y i : Nat) :
    i ∈ sf_to_ff_index W (x, y) ↔
      ∃ a b : Nat, a < 2 ∧ b < 2 ∧ i = ffield_index W (2 * x + a, 2 * y + b) := by
  rw [sf_to_ff_index_eq]
  constructor
  · intro h
    simp only [List.mem_cons, List.not_mem_nil, or_false] at h
    rcases h with rfl | rfl | rfl | rfl
    · exact ⟨0, 0, by omega, by omega, by norm_num⟩
    · exact ⟨1, 0, by omega, by omega, by norm_num⟩
    · exact ⟨0, 1, by omega, by omega, by norm_num⟩
    · exact ⟨1, 1, by omega, by omega, by norm_num⟩
  · rintro ⟨a, b, ha, hb, rfl⟩
    interval_cases a <;> interval_cases b <;> simp

lemma ffield_index_lt (W H : Nat) (c : Nat × Nat) (h : ffInRange W H c) :
    ffield_index W c < W * 2 * (H * 2) := by
  obtain ⟨h1, h2⟩ := h
  unfold ffield_index
  have : c.2 * (W * 2) + c.1 < (c.2 + 1) * (W * 2) := by nlinarith
  have h3 : (c.2 + 1) * (W * 2) ≤ H * 2 * (W * 2) := by
    apply Nat.mul_le_mul_right
    omega
  calc ffield_index W c < (c.2 + 1) * (W * 2) := this
    _ ≤ H * 2 * (W * 2) := h3
    _ = W * 2 * (H * 2) := by ring

lemma ffield_index_inj (W H : Nat) (c d : Nat × Nat)
    (hc : ffInRange W H c) (hd : ffInRange W H d)
    (h : ffield_index W c = ffield_index W d) : c = d := by
  obtain ⟨hc1, hc2⟩ := hc
  obtain ⟨hd1, hd2⟩ := hd
  unfold ffield_index at h
  have e2 : c.2 = d.2 := by
    by_contra hne
    rcases Nat.lt_or_ge c.2 d.2 with hlt | hge
    · have hmul : (c.2 + 1) * (W * 2) ≤ d.2 * (W * 2) :=
        Nat.mul_le_mul_right _ (by omega)
      nlinarith
    · have hlt : d.2 < c.2 := by omega
      have hmul : (d.2 + 1) * (W * 2) ≤ c.2 * (W * 2) :=
        Nat.mul_le_mul_right _ (by omega)
      nlinarith
  have e1 : c.1 = d.1 := by
    rw [e2] at h
    omega
  exact Prod.ext_iff.mpr ⟨e1, e2⟩

lemma ff_to_sf_of_sub (W : Nat) (x y a b : Nat) (ha : a < 2) (hb : b < 2) :
    ff_to_sf_index W (2 * x + a, 2 * y + b) = sfield_index W (x, y) := by
  unfold ff_to_sf_index sfield_index
  simp only
  have h1 : (2 * x + a) / 2 = x := by omega
  have h2 : (2 * y + b) / 2 = y := by omega
  rw [h1, h2]
  exact Nat.add_comm _ _

lemma sfield_index_lt (W H : Nat) (c : Nat × Nat) (h : sfInRange W H c) :
    sfield_index W c < W * H := by
  obtain ⟨h1, h2⟩ := h
  unfold sfield_index
  nlinarith

lemma sfield_index_inj (W H : Nat) (c d : Nat × Nat)
    (hc : sfInRange W H c) (hd : sfInRange W H d)
    (h : sfield_index W c = sfield_index W d) : c = d := by
  obtain ⟨hc1, hc2⟩ := hc
  obtain ⟨hd1, hd2⟩ := hd
  unfold sfield_index at h
  have e2 : c.2 = d.2 := by
    by_contra hne
    rcases Nat.lt_or_ge c.2 d.2 with hlt | hge
    · have hmul : (c.2 + 1) * W ≤ d.2 * W := Nat.mul_le_mul_right _ (by omega)
      nlinarith
    · have hlt : d.2 < c.2 := by omega
      have hmul : (d.2 + 1) * W ≤ c.2 * W := Nat.mul_le_mul_right _ (by omega)
      nlinarith
  have e1 : c.1 = d.1 := by
    rw [e2] at h
    omega
  exact Prod.ext_iff.mpr ⟨e1, e2⟩

lemma ff_pos_of_index_ffield (W H : Nat) (pos : Nat × Nat) (h : ffInRange W H pos) :
    ff_pos_of_index W (ffield_index W pos) = pos := by
  obtain ⟨h1, h2⟩ := h
  have hW : 0 < W * 2 := by omega
  have e1 : ffield_index W pos % (W * 2) = pos.1 := by
    unfold ffield_index
    rw [Nat.add_comm, Nat.add_mul_mod_self_right, Nat.mod_eq_of_lt h1]
  have e3 : ffield_index W pos / (W * 2) = pos.2 := by
    unfold ffield_index
    rw [Nat.add_comm, Nat.add_mul_div_right _ _ hW, Nat.div_eq_of_lt h1, Nat.zero_add]
  unfold ff_pos_of_index
  rw [e1, e3]

lemma ffield_ff_pos_of_index (W H : Nat) (hW : 1 ≤ W) (hH : 1 ≤ H) (i : Nat)
    (hi : i < W * 2 * (H * 2)) :
    ffield_index W (ff_pos_of_index W i) = i ∧ ffInRange W H (ff_pos_of_index W i) := by
  have hWpos : 0 < W * 2 := by omega
  unfold ff_pos_of_index ffield_index ffInRange
  refine ⟨?_, ?_, ?_⟩
  · simp only
    exact Nat.div_add_mod' i (W * 2)
  · exact Nat.mod_lt _ hWpos
  · simp only
    rw [Nat.div_lt_iff_lt_mul hWpos]
    calc i < W * 2 * (H * 2) := hi
      _ = H * 2 * (W * 2) := by ring

lemma ff_advance_spec (W H : Nat) (hW : 1 ≤ W) (hH : 1 ≤ H) (pos : Nat × Nat)
    (h : ffInRange W H pos) :
    ffInRange W H (ff_advance W H pos) ∧
      ffield_index W (ff_advance W H pos) =
        (ffield_index W pos + 1) % (W * 2 * (H * 2)) := by
  obtain ⟨h1, h2⟩ := h
  have hWpos : 0 < W * 2 := by omega
  have hHpos : 0 < H * 2 := by omega
  unfold ff_advance
  rcases Nat.lt_or_ge (pos.1 + 1) (W * 2) with hu | hu
  · rw [if_neg (by rw [Nat.div_eq_of_lt hu]; omega)]
    have hlt : pos.2 * (W * 2) + pos.1 + 1 < W * 2 * (H * 2) := by
      have e1 : (pos.2 + 1) * (W * 2) ≤ H * 2 * (W * 2) :=
        Nat.mul_le_mul_right _ (by omega)
      have e2 : (pos.2 + 1) * (W * 2) = pos.2 * (W * 2) + W * 2 := by ring
      have e3 : H * 2 * (W * 2) = W * 2 * (H * 2) := by ring
      omega
    refine ⟨⟨hu, h2⟩, ?_⟩
    unfold ffield_index
    simp only
    rw [Nat.mod_eq_of_lt hlt]
    omega
  · have hu2 : pos.1 + 1 = W * 2 := by omega
    rw [if_pos (by rw [hu2, Nat.div_self hWpos])]
    refine ⟨⟨by omega, Nat.mod_lt _ hHpos⟩, ?_⟩
    unfold ffield_index
    simp only
    rcases Nat.lt_or_ge (pos.2 + 1) (H * 2) with hv | hv
    · have e2 : (pos.2 + 1) * (W * 2) = pos.2 * (W * 2) + W * 2 := by ring
      have hlt : pos.2 * (W * 2) + pos.1 + 1 < W * 2 * (H * 2) := by
        have e1 : (pos.2 + 1) * (W * 2) < (H * 2) * (W * 2) :=
          (Nat.mul_lt_mul_right hWpos).mpr (by omega)
        have e3 : H * 2 * (W * 2) = W * 2 * (H * 2) := by ring
        omega
      rw [Nat.mod_eq_of_lt hv, Nat.mod_eq_of_lt hlt]
      omega
    · have hv2 : pos.2 + 1 = H * 2 := by omega
      rw [hv2, Nat.mod_self, Nat.zero_mul, Nat.zero_add]
      have e2 : pos.2 * (W * 2) + pos.1 + 1 = W * 2 * (H * 2) := by
        have e3 : (pos.2 + 1) * (W * 2) = pos.2 * (W * 2) + W * 2 := by ring
        have e4 : (pos.2 + 1) * (W * 2) = H * 2 * (W * 2) := by rw [hv2]
        have e5 : H * 2 * (W * 2) = W * 2 * (H * 2) := by ring
        omega
      rw [e2, Nat.mod_self]

lemma add_food_walk_finds (W H : Nat) (w : World) (hW : 1 ≤ W) (hH : 1 ≤ H) :
    ∀ fuel pos, ffInRange W H pos →
    (∃ d < fuel, food_pos_valid W w
      (ff_pos_of_index W ((ffield_index W pos + d) % (W * 2 * (H * 2)))) = true) →
    ∃ q, add_food_walk W H w fuel pos = some q ∧
      food_pos_valid W w q = true ∧ ffInRange W H q := by
  intro fuel
  induction fuel with
  | zero =>
    intro pos _ hex
    obtain ⟨d, hd, _⟩ := hex
    omega
  | succ fuel ih =>
    intro pos hrange hex
    by_cases hv : food_pos_valid W w pos = true
    · exact ⟨pos, by simp [add_food_walk, hv], hv, hrange⟩
    · have hstep := ff_advance_spec W H hW hH pos hrange
      obtain ⟨hrange', hidx'⟩ := hstep
      obtain ⟨d, hd, hvd⟩ := hex
      have hN : ffield_index W pos < W * 2 * (H * 2) :=
        ffield_index_lt W H pos hrange
      have hdne : d ≠ 0 := by
        intro h0
        rw [h0, Nat.add_zero, Nat.mod_eq_of_lt hN,
          ff_pos_of_index_ffield W H pos hrange] at hvd
        exact hv hvd
      obtain ⟨d', rfl⟩ : ∃ d', d = d' + 1 := ⟨d - 1, by omega⟩
      have hnext : ∃ e < fuel, food_pos_valid W w
          (ff_pos_of_index W
            ((ffield_index W (ff_advance W H pos) + e) % (W * 2 * (H * 2)))) = true := by
        refine ⟨d', by omega, ?_⟩
        rw [hidx', Nat.mod_add_mod]
        have : ffield_index W pos + 1 + d' = ffield_index W pos + (d' + 1) := by omega
        rw [this]
        exact hvd
      obtain ⟨q, hq, hvq, hrq⟩ := ih (ff_advance W H pos) hrange' hnext
      exact ⟨q, by simp [add_food_walk, hv, hq], hvq, hrq⟩

/-- If any in-range valid sub-cell exists, the add_food walk with a full-cycle fuel
finds a valid in-range sub-cell. -/
lemma add_food_walk_total (W H : Nat) (w : World) (hW : 1 ≤ W) (hH : 1 ≤ H)
    (start : Nat × Nat) (hstart : ffInRange W H start)
    (hex : ∃ p, ffInRange W H p ∧ food_pos_valid W w p = true) :
    ∃ q, add_food_walk W H w (W * 2 * (H * 2)) start = some q ∧
      food_pos_valid W w q = true ∧ ffInRange W H q := by
  obtain ⟨p, hp, hvp⟩ := hex
  apply add_food_walk_finds W H w hW hH _ start hstart
  set N := W * 2 * (H * 2) with hN
  have hm : ffield_index W p < N := ffield_index_lt W H p hp
  have hl : ffield_index W start < N := ffield_index_lt W H start hstart
  have hNpos : 0 < N := by positivity
  refine ⟨(ffield_index W p + N - ffield_index W start) % N, Nat.mod_lt _ hNpos, ?_⟩
  have heq : (ffield_index W start +
      (ffield_index W p + N - ffield_index W start) % N) % N = ffield_index W p := by
    rw [Nat.add_mod_mod]
    have e1 : ffield_index W start + (ffield_index W p + N - ffield_index W start) =
        ffield_index W p + N := by omega
    rw [e1, Nat.add_mod_right, Nat.mod_eq_of_lt hm]
  rw [heq, ff_pos_of_index_ffield W H p hp]
  exact hvp

lemma add_food_walk_sound (W H : Nat) (w : World) (hW : 1 ≤ W) (hH : 1 ≤ H) :
    ∀ fuel pos q, ffInRange W H pos → add_food_walk W H w fuel pos = some q →
      food_pos_valid W w q = true ∧ ffInRange W H q := by
  intro fuel
  induction fuel with
  | zero => intro pos q _ h; simp [add_food_walk] at h
  | succ fuel ih =>
    intro pos q hrange h
    by_cases hv : food_pos_valid W w pos = true
    · simp [add_food_walk, hv] at h
      exact h ▸ ⟨hv, hrange⟩
    · simp [add_food_walk, hv] at h
      exact ih _ q (ff_advance_spec W H hW hH pos hrange).1 h

lemma add_food_some_form (W H : Nat) (w : World) (start : Nat × Nat) (w' : World)
    (hW : 1 ≤ W) (hH : 1 ≤ H) (hstart : ffInRange W H start)
    (h : add_food W H w start = some w') :
    ∃ pos, ffInRange W H pos ∧ food_pos_valid W w pos = true ∧
      w' = { w with
        foods := Function.update w.foods (ffield_index W pos)
          (w.foods (ffield_index W pos) + 1) } := by
  unfold add_food at h
  cases hwalk : add_food_walk W H w (W * 2 * (H * 2)) start with
  | none => rw [hwalk] at h; simp at h
  | some pos =>
    rw [hwalk] at h
    simp at h
    obtain ⟨hvq, hrq⟩ := add_food_walk_sound W H w hW hH _ start pos hstart hwalk
    exact ⟨pos, hrq, hvq, h.symm⟩

lemma add_food_total (W H : Nat) (w : World) (start : Nat × Nat)
    (hW : 1 ≤ W) (hH : 1 ≤ H) (hstart : ffInRange W H start)
    (hex : ∃ p, ffInRange W H p ∧ food_pos_valid W w p = true) :
    ∃ w', add_food W H w start = some w' := by
  obtain ⟨q, hq, _, _⟩ := add_food_walk_total W H w hW hH start hstart hex
  exact ⟨_, by unfold add_food; rw [hq]⟩

lemma totalFood_update (W H : Nat) (f : Nat → Nat) (i v : Nat)
    (hi : i < W * 2 * (H * 2)) :
    totalFood W H (Function.update f i v) + f i = totalFood W H f + v := by
  unfold totalFood
  have hmem : i ∈ Finset.range (W * 2 * (H * 2)) := Finset.mem_range.mpr hi
  rw [Finset.sum_update_of_mem hmem]
  rw [← Finset.add_sum_erase _ f hmem, Finset.erase_eq]
  omega

lemma food_pos_valid_iff (W : Nat) (w : World) (pos : Nat × Nat) :
    food_pos_valid W w pos = true ↔
      w.snake_parts (ff_to_sf_index W pos) = 0 ∧ w.foods (ffield_index W pos) < 255 := by
  unfold food_pos_valid
  simp

lemma spareCapacity_pos_exists (W H : Nat) (w : World) (hW : 1 ≤ W) (hH : 1 ≤ H)
    (h : 0 < spareCapacity W H w) :
    ∃ p, ffInRange W H p ∧ food_pos_valid W w p = true := by
  have hne0 : spareCapacity W H w ≠ 0 := by omega
  unfold spareCapacity at hne0
  obtain ⟨i, hi, hne⟩ := Finset.exists_ne_zero_of_sum_ne_zero hne0
  have hiN : i < W * 2 * (H * 2) := Finset.mem_range.mp hi
  obtain ⟨hidx, hrange⟩ := ffield_ff_pos_of_index W H hW hH i hiN
  refine ⟨ff_pos_of_index W i, hrange, ?_⟩
  rw [food_pos_valid_iff]
  by_cases hs : w.snake_parts (ff_to_sf_index W (ff_pos_of_index W i)) = 0
  · rw [if_pos hs] at hne
    exact ⟨hs, by rw [hidx]; omega⟩
  · rw [if_neg hs] at hne
    omega

lemma spareCapacity_update (W H : Nat) (w : World) (pos : Nat × Nat)
    (hW : 1 ≤ W) (hH : 1 ≤ H) (hrange : ffInRange W H pos)
    (hvalid : food_pos_valid W w pos = true) :
    spareCapacity W H
        { w with
          foods := Function.update w.foods (ffield_index W pos)
            (w.foods (ffield_index W pos) + 1) } + 1 =
      spareCapacity W H w := by
  obtain ⟨hsnake, hfood⟩ := (food_pos_valid_iff W w pos).mp hvalid
  set i0 := ffield_index W pos with hi0
  have hiN : i0 < W * 2 * (H * 2) := ffield_index_lt W H pos hrange
  have hmem : i0 ∈ Finset.range (W * 2 * (H * 2)) := Finset.mem_range.mpr hiN
  have hpos0 : ff_pos_of_index W i0 = pos := ff_pos_of_index_ffield W H pos hrange
  unfold spareCapacity
  dsimp only
  rw [← Finset.add_sum_erase _ _ hmem, ← Finset.add_sum_erase _
    (fun i => if w.snake_parts (ff_to_sf_index W (ff_pos_of_index W i)) = 0
      then 255 - w.foods i else 0) hmem]
  have hrest : ∑ i ∈ (Finset.range (W * 2 * (H * 2))).erase i0,
      (if w.snake_parts (ff_to_sf_index W (ff_pos_of_index W i)) = 0
       then 255 - Function.update w.foods i0 (w.foods i0 + 1) i else 0) =
    ∑ i ∈ (Finset.range (W * 2 * (H * 2))).erase i0,
      (if w.snake_parts (ff_to_sf_index W (ff_pos_of_index W i)) = 0
       then 255 - w.foods i else 0) := by
    apply Finset.sum_congr rfl
    intro i hi
    have hne : i ≠ i0 := Finset.ne_of_mem_erase hi
    rw [Function.update_noteq hne]
  rw [hrest]
  have hterm : (if w.snake_parts (ff_to_sf_index W (ff_pos_of_index W i0)) = 0
      then 255 - Function.update w.foods i0 (w.foods i0 + 1) i0 else 0) + 1 =
    (if w.snake_parts (ff_to_sf_index W (ff_pos_of_index W i0)) = 0
      then 255 - w.foods i0 else 0) := by
    rw [hpos0, if_pos hsnake, if_pos hsnake, Function.update_same]
    omega
  omega

lemma add_food_inv (W H : Nat) (w : World) (pos : Nat × Nat)
    (hrange : ffInRange W H pos) (hvalid : food_pos_valid W w pos = true)
    (hinv : FoodSnakeInv W H w) :
    FoodSnakeInv W H
      { w with
        foods := Function.update w.foods (ffield_index W pos)
          (w.foods (ffield_index W pos) + 1) } := by
  obtain ⟨hsnake, _⟩ := (food_pos_valid_iff W w pos).mp hvalid
  intro x y a b hx hy ha hb hocc
  simp only at hocc ⊢
  by_cases heq : ffield_index W (2 * x + a, 2 * y + b) = ffield_index W pos
  · exfalso
    have hsub : ffInRange W H (2 * x + a, 2 * y + b) := ⟨by omega, by omega⟩
    have hpe : (2 * x + a, (2 * y + b : Nat)) = pos :=
      ffield_index_inj W H _ pos hsub hrange heq
    have hcell : ff_to_sf_index W pos = sfield_index W (x, y) := by
      rw [← hpe]
      exact ff_to_sf_of_sub W x y a b ha hb
    rw [hcell] at hsnake
    exact hocc hsnake
  · rw [Function.update_noteq heq]
    exact hinv x y a b hx hy ha hb hocc

lemma add_food_times_spec (W H : Nat) (starts : Nat → Nat × Nat)
    (hW : 1 ≤ W) (hH : 1 ≤ H) (hstarts : ∀ n, ffInRange W H (starts n)) :
    ∀ n w, n ≤ spareCapacity W H w →
    ∃ w', add_food_times W H starts n w = some w' ∧
      totalFood W H w'.foods = totalFood W H w.foods + n ∧
      w'.snake_parts = w.snake_parts ∧
      spareCapacity W H w' + n = spareCapacity W H w ∧
      (FoodSnakeInv W H w → FoodSnakeInv W H w') := by
  intro n
  induction n with
  | zero =>
    intro w _
    exact ⟨w, rfl, by omega, rfl, by omega, fun h => h⟩
  | succ n ih =>
    intro w hcap
    have hex : ∃ p, ffInRange W H p ∧ food_pos_valid W w p = true :=
      spareCapacity_pos_exists W H w hW hH (by omega)
    obtain ⟨w1, hw1⟩ := add_food_total W H w (starts n) hW hH (hstarts n) hex
    obtain ⟨pos, hrange, hvalid, hform⟩ :=
      add_food_some_form W H w (starts n) w1 hW hH (hstarts n) hw1
    have hcap1 : spareCapacity W H w1 + 1 = spareCapacity W H w := by
      rw [hform]
      exact spareCapacity_update W H w pos hW hH hrange hvalid
    have htot1 : totalFood W H w1.foods = totalFood W H w.foods + 1 := by
      rw [hform]
      have := totalFood_update W H w.foods (ffield_index W pos)
        (w.foods (ffield_index W pos) + 1) (ffield_index_lt W H pos hrange)
      simp only
      omega
    have hsp1 : w1.snake_parts = w.snake_parts := by rw [hform]
    have hinv1 : FoodSnakeInv W H w → FoodSnakeInv W H w1 := by
      intro hinv
      rw [hform]
      exact add_food_inv W H w pos hrange hvalid hinv
    obtain ⟨w', hrun, htot, hsp, hcap', hinv'⟩ := ih w1 (by omega)
    refine ⟨w', ?_, by omega, by rw [hsp, hsp1], by omega, fun h => hinv' (hinv1 h)⟩
    simp [add_food_times, hw1, hrun]

lemma sf_to_ff_nodup (W : Nat) (hW : 1 ≤ W) (p : Nat × Nat) :
    (sf_to_ff_index W p).Nodup := by
  obtain ⟨x, y⟩ := p
  unfold sf_to_ff_index
  dsimp only
  have e1 : (4 * y + 2) * W = 4 * y * W + 2 * W := by ring
  have e2 : (4 * y + 0) * W = 4 * y * W := by ring
  rw [e1, e2]
  simp only [List.nodup_cons, List.mem_cons, List.mem_singleton, List.not_mem_nil,
    List.nodup_nil, and_true, not_or, List.mem_cons, not_false_eq_true]
  refine ⟨⟨?_, ?_, ?_⟩, ⟨?_, ?_⟩, ?_⟩ <;> omega

lemma sf_to_ff_mem_lt (W H : Nat) (p : Nat × Nat) (hp : sfInRange W H p) :
    ∀ i ∈ sf_to_ff_index W p, i < W * 2 * (H * 2) := by
  intro i hi
  obtain ⟨px, py⟩ := p
  rw [mem_sf_to_ff_index] at hi
  obtain ⟨a, b, ha, hb, rfl⟩ := hi
  obtain ⟨hx, hy⟩ := hp
  exact ffield_index_lt W H _ ⟨by simp only; omega, by simp only; omega⟩

lemma sf_to_ff_disjoint (W H : Nat) (p q : Nat × Nat)
    (hp : sfInRange W H p) (hq : sfInRange W H q) (hne : p ≠ q) :
    ∀ i ∈ sf_to_ff_index W p, i ∉ sf_to_ff_index W q := by
  obtain ⟨px, py⟩ := p
  obtain ⟨qx, qy⟩ := q
  intro i hip hiq
  rw [mem_sf_to_ff_index] at hip hiq
  obtain ⟨a, b, ha, hb, rfl⟩ := hip
  obtain ⟨c, d, hc, hd, heq⟩ := hiq
  obtain ⟨hpx, hpy⟩ := hp
  obtain ⟨hqx, hqy⟩ := hq
  have hr1 : ffInRange W H (2 * px + a, 2 * py + b) := ⟨by simp only; omega, by simp only; omega⟩
  have hr2 : ffInRange W H (2 * qx + c, 2 * qy + d) := ⟨by simp only; omega, by simp only; omega⟩
  have := ffield_index_inj W H _ _ hr1 hr2 heq
  rw [Prod.ext_iff] at this
  simp only at this
  apply hne
  rw [Prod.ext_iff]
  constructor <;> simp only <;> omega

lemma set_foods_list_notmem (idxs : List Nat) :
    ∀ (f : Nat → Nat) (vals : List Nat) (j : Nat), j ∉ idxs →
      set_foods_list f idxs vals j = f j := by
  induction idxs with
  | nil => intro f vals j _; rfl
  | cons i idxs ih =>
    intro f vals j hj
    cases vals with
    | nil => rfl
    | cons v vs =>
      simp only [List.mem_cons, not_or] at hj
      rw [set_foods_list, ih _ vs j hj.2, Function.update_noteq hj.1]

lemma set_foods_list_total (W H : Nat) (idxs : List Nat) :
    ∀ (f : Nat → Nat) (vals : List Nat), idxs.Nodup →
      (∀ i ∈ idxs, i < W * 2 * (H * 2)) → (∀ i ∈ idxs, f i = 0) →
      vals.length = idxs.length →
      totalFood W H (set_foods_list f idxs vals) = totalFood W H f + vals.sum := by
  induction idxs with
  | nil =>
    intro f vals _ _ _ hlen
    rw [List.length_nil, List.length_eq_zero] at hlen
    subst hlen
    simp [set_foods_list]
  | cons i idxs ih =>
    intro f vals hnodup hlt hzero hlen
    cases vals with
    | nil => simp at hlen
    | cons v vs =>
      rw [List.nodup_cons] at hnodup
      rw [set_foods_list]
      have hupd : ∀ j ∈ idxs, Function.update f i v j = f j := by
        intro j hj
        exact Function.update_noteq (fun hji => hnodup.1 (by rw [← hji]; exact hj)) _ _
      rw [ih (Function.update f i v) vs hnodup.2
        (fun j hj => hlt j (List.mem_cons_of_mem _ hj))
        (fun j hj => by rw [hupd j hj]; exact hzero j (List.mem_cons_of_mem _ hj))
        (by simpa using hlen)]
      have htot := totalFood_update W H f i v (hlt i (List.mem_cons_self _ _))
      have hfi : f i = 0 := hzero i (List.mem_cons_self _ _)
      rw [List.sum_cons]
      omega

lemma remove_snake_foods_snake (W : Nat) :
    ∀ (parts : List (Nat × Nat)) (amounts : List Nat) (w : World) (j : Nat),
      (remove_snake_foods W w parts amounts).snake_parts j =
        if j ∈ parts.map (sfield_index W) then 0 else w.snake_parts j := by
  intro parts
  induction parts with
  | nil => intro amounts w j; simp [remove_snake_foods]
  | cons p ps ih =>
    intro amounts w j
    rw [remove_snake_foods, ih]
    by_cases hj : j ∈ ps.map (sfield_index W)
    · simp [hj]
    · rw [if_neg hj]
      dsimp only
      simp only [List.map_cons, List.mem_cons]
      by_cases hjp : j = sfield_index W p
      · rw [if_pos (Or.inl hjp)]
        subst hjp
        exact Function.update_same _ _ _
      · rw [if_neg (by tauto)]
        exact Function.update_noteq hjp _ _

lemma remove_snake_foods_foods_notmem (W : Nat) :
    ∀ (parts : List (Nat × Nat)) (amounts : List Nat) (w : World) (i : Nat),
      (∀ p ∈ parts, i ∉ sf_to_ff_index W p) →
      (remove_snake_foods W w parts amounts).foods i = w.foods i := by
  intro parts
  induction parts with
  | nil => intro amounts w i _; rfl
  | cons p ps ih =>
    intro amounts w i hi
    rw [remove_snake_foods, ih _ _ _ (fun q hq => hi q (List.mem_cons_of_mem _ hq))]
    exact set_foods_list_notmem _ _ _ _ (hi p (List.mem_cons_self _ _))

lemma clear_parts_eq (W : Nat) (ps : List (Nat × Nat)) :
    ∀ (sp : Nat → Nat) (j : Nat),
      clear_parts W sp ps j = if j ∈ ps.map (sfield_index W) then 0 else sp j := by
  induction ps with
  | nil => intro sp j; simp [clear_parts]
  | cons p ps ih =>
    intro sp j
    unfold clear_parts at ih ⊢
    rw [List.foldl_cons, ih]
    by_cases hj : j ∈ ps.map (sfield_index W)
    · simp [hj]
    · rw [if_neg hj]
      simp only [List.map_cons, List.mem_cons]
      by_cases hjp : j = sfield_index W p
      · rw [if_pos (Or.inl hjp)]
        subst hjp
        exact Function.update_same _ _ _
      · rw [if_neg (by tauto)]
        exact Function.update_noteq hjp _ _

lemma remove_snake_foods_total (W H : Nat) (hW : 1 ≤ W) (hH : 1 ≤ H) :
    ∀ (parts : List (Nat × Nat)) (amounts : List Nat) (w : World),
      (∀ p ∈ parts, sfInRange W H p) → parts.Nodup →
      (∀ p ∈ parts, ∀ i ∈ sf_to_ff_index W p, w.foods i = 0) →
      4 * parts.length ≤ amounts.length →
      totalFood W H (remove_snake_foods W w parts amounts).foods =
        totalFood W H w.foods + (amounts.take (4 * parts.length)).sum := by
  intro parts
  induction parts with
  | nil =>
    intro amounts w _ _ _ _
    simp [remove_snake_foods]
  | cons p ps ih =>
    intro amounts w hrange hnodup hzero hlen
    rw [List.length_cons] at hlen
    have hp : sfInRange W H p := hrange p (List.mem_cons_self _ _)
    rw [remove_snake_foods]
    have hstep : totalFood W H
        (set_foods_list w.foods (sf_to_ff_index W p) (amounts.take 4)) =
        totalFood W H w.foods + (amounts.take 4).sum := by
      apply set_foods_list_total W H _ _ _ (sf_to_ff_nodup W hW p)
        (sf_to_ff_mem_lt W H p hp) (hzero p (List.mem_cons_self _ _))
      have h4 : (sf_to_ff_index W p).length = 4 := rfl
      rw [h4, List.length_take]
      omega
    rw [List.nodup_cons] at hnodup
    have hnext := ih (amounts.drop 4)
      { snake_parts := Function.update w.snake_parts (sfield_index W p) 0,
        foods := set_foods_list w.foods (sf_to_ff_index W p) (amounts.take 4) }
      (fun q hq => hrange q (List.mem_cons_of_mem _ hq)) hnodup.2
      (by
        intro q hq i hi
        have hqp : q ≠ p := fun h => hnodup.1 (h ▸ hq)
        have hd := sf_to_ff_disjoint W H q p
          (hrange q (List.mem_cons_of_mem _ hq)) hp hqp i hi
        simp only
        rw [set_foods_list_notmem _ _ _ _ hd]
        exact hzero q (List.mem_cons_of_mem _ hq) i hi)
      (by rw [List.length_drop]; omega)
    rw [hnext]
    simp only at hstep ⊢
    rw [hstep, List.length_cons]
    have hsplit : amounts.take (4 * (ps.length + 1)) =
        amounts.take 4 ++ (amounts.drop 4).take (4 * ps.length) := by
      have e : 4 * (ps.length + 1) = 4 + 4 * ps.length := by ring
      rw [e, List.take_add]
    rw [hsplit, List.sum_append]
    omega

lemma remove_snake_spec (W H : Nat) (starts : Nat → Nat × Nat) (w : World)
    (score : Nat) (parts : List (Nat × Nat))
    (hW : 1 ≤ W) (hH : 1 ≤ H) (hstarts : ∀ n, ffInRange W H (starts n))
    (hrange : ∀ p ∈ parts, sfInRange W H p) (hnodup : parts.Nodup)
    (hinv : FoodSnakeInv W H w)
    (hocc : ∀ p ∈ parts.take (calc_length score),
      w.snake_parts (sfield_index W p) ≠ 0)
    (hcap : ((score_to_foods score).drop
        (4 * (parts.take (calc_length score)).length)).sum ≤
      spareCapacity W H (remove_snake_foods W w (parts.take (calc_length score))
        (score_to_foods score))) :
    ∃ w', remove_snake W H starts w score parts = some w' ∧
      totalFood W H w'.foods = totalFood W H w.foods + score ∧
      FoodSnakeInv W H w' := by
  have hrange_used : ∀ p ∈ parts.take (calc_length score), sfInRange W H p :=
    fun p hp => hrange p (List.take_subset _ _ hp)
  have hnodup_used : (parts.take (calc_length score)).Nodup :=
    hnodup.sublist (List.take_sublist _ _)
  have hzero : ∀ p ∈ parts.take (calc_length score),
      ∀ i ∈ sf_to_ff_index W p, w.foods i = 0 := by
    intro p hp i hi
    obtain ⟨px, py⟩ := p
    rw [mem_sf_to_ff_index] at hi
    obtain ⟨a, b, ha, hb, rfl⟩ := hi
    exact hinv px py a b (hrange_used _ hp).1 (hrange_used _ hp).2 ha hb (hocc _ hp)
  have hlen : 4 * (parts.take (calc_length score)).length ≤
      (score_to_foods score).length := by
    rw [score_to_foods_length, List.length_take]
    omega
  have htot1 := remove_snake_foods_total W H hW hH
    (parts.take (calc_length score)) (score_to_foods score) w
    hrange_used hnodup_used hzero hlen
  have hinv1 : FoodSnakeInv W H
      (remove_snake_foods W w (parts.take (calc_length score))
        (score_to_foods score)) := by
    intro x y a b hx hy ha hb hocc1
    rw [remove_snake_foods_snake] at hocc1
    by_cases hmem : sfield_index W (x, y) ∈
        (parts.take (calc_length score)).map (sfield_index W)
    · rw [if_pos hmem] at hocc1
      exact absurd rfl hocc1
    · rw [if_neg hmem] at hocc1
      have hdisj : ∀ p ∈ parts.take (calc_length score),
          ffield_index W (2 * x + a, 2 * y + b) ∉ sf_to_ff_index W p := by
        intro p hp
        have hxyp : (x, y) ≠ p := by
          intro h
          exact hmem (List.mem_map_of_mem _ (h ▸ hp))
        apply sf_to_ff_disjoint W H (x, y) p ⟨hx, hy⟩ (hrange_used p hp) hxyp
        rw [mem_sf_to_ff_index]
        exact ⟨a, b, ha, hb, rfl⟩
      rw [remove_snake_foods_foods_notmem _ _ _ _ _ hdisj]
      exact hinv x y a b hx hy ha hb hocc1
  obtain ⟨w2, hrun, htot2, hsp2, hcap2, hinv2⟩ :=
    add_food_times_spec W H starts hW hH hstarts
      ((score_to_foods score).drop
        (4 * (parts.take (calc_length score)).length)).sum
      (remove_snake_foods W w (parts.take (calc_length score))
        (score_to_foods score)) hcap
  refine ⟨{ w2 with
      snake_parts := clear_parts W w2.snake_parts
        (parts.drop (calc_length score)) }, ?_, ?_, ?_⟩
  · unfold remove_snake
    rw [hrun]
  · simp only
    rw [htot2, htot1]
    have hsplit := List.take_append_drop
      (4 * (parts.take (calc_length score)).length) (score_to_foods score)
    have hsum : ((score_to_foods score).take
          (4 * (parts.take (calc_length score)).length)).sum +
        ((score_to_foods score).drop
          (4 * (parts.take (calc_length score)).length)).sum =
        (score_to_foods score).sum := by
      rw [← List.sum_append, hsplit]
    rw [score_to_foods_sum] at hsum
    omega
  · intro x y a b hx hy ha hb hocc1
    simp only at hocc1 ⊢
    rw [clear_parts_eq] at hocc1
    by_cases hmem : sfield_index W (x, y) ∈
        (parts.drop (calc_length score)).map (sfield_index W)
    · rw [if_pos hmem] at hocc1
      exact absurd rfl hocc1
    · rw [if_neg hmem] at hocc1
      exact hinv2 hinv1 x y a b hx hy ha hb hocc1

lemma fast_off_check_fields (p : Player) :
    (fast_off_check p).direction = p.direction ∧
    (fast_off_check p).last_direction = p.last_direction ∧
    (fast_off_check p).score = p.score ∧
    (fast_off_check p).fast_mode = (p.fast_mode && !decide (p.score < 1)) := by
  unfold fast_off_check
  cases hf : p.fast_mode <;> cases hs : decide (p.score < 1) <;> simp [hf, hs]

lemma fold_last_direction_fields (p : Player) :
    (fold_last_direction p).direction = p.direction ∧
    (fold_last_direction p).last_direction = p.direction ∧
    (fold_last_direction p).score = p.score ∧
    (fold_last_direction p).fast_mode = p.fast_mode := by
  unfold fold_last_direction
  by_cases hd : p.direction ≠ p.last_direction
  · simp [hd]
  · push_neg at hd
    simp [hd]

lemma burn_score_fields (p : Player) :
    (burn_score p).direction = p.direction ∧
    (burn_score p).last_direction = p.last_direction ∧
    (burn_score p).score = (if p.fast_mode then p.score - 1 else p.score) ∧
    (burn_score p).fast_mode = p.fast_mode := by
  unfold burn_score
  cases hf : p.fast_mode <;> simp [hf]

lemma fold_last_direction_parts (p : Player) :
    (fold_last_direction p).parts = p.parts := by
  unfold fold_last_direction
  split <;> rfl

lemma new_head_pos_congr (W H : Nat) (p q : Player)
    (hd : p.direction = q.direction) (hp : p.parts = q.parts) :
    new_head_pos W H p = new_head_pos W H q := by
  unfold new_head_pos
  rw [hd, hp]

/-- A snake that is still in fast mode after the cutoff claims the same cell twice:
both sub-steps compute the prospective head from parts.back(), and parts is not
advanced between the sub-steps (src/server.rs lines 689-707). -/
lemma fast_mode_duplicate_claim (W H : Nat) (p : Player)
    (hon : (fast_off_check p).fast_mode = true) :
    move_intent_claims W H p =
      [new_head_pos W H (fold_last_direction (fast_off_check p)),
       new_head_pos W H (fold_last_direction (fast_off_check p))] := by
  have hmoves : (move_snake_ctl p).2 = 2 := by
    unfold move_snake_ctl
    simp only
    rw [hon]
    rfl
  unfold move_intent_claims
  rw [hmoves]
  simp only [sub_step_claims]
  rw [new_head_pos_congr W H
    (fold_last_direction (fold_last_direction (fast_off_check p)))
    (fold_last_direction (fast_off_check p))
    ((fold_last_direction_fields _).1) (fold_last_direction_parts _)]

lemma foldl_spawn_eat (idxs : List Nat) :
    ∀ ac : World × Nat,
      (idxs.foldl spawn_eat_step ac).1.snake_parts = ac.1.snake_parts ∧
      ∀ j, (idxs.foldl spawn_eat_step ac).1.foods j =
        if j ∈ idxs then 0 else ac.1.foods j := by
  induction idxs with
  | nil => intro ac; exact ⟨rfl, fun j => by simp⟩
  | cons i idxs ih =>
    intro ac
    rw [List.foldl_cons]
    refine ⟨(ih _).1, fun j => ?_⟩
    rw [(ih _).2 j]
    by_cases hj : j ∈ idxs
    · simp [hj]
    · rw [if_neg hj]
      simp only [List.mem_cons]
      by_cases hji : j = i
      · rw [if_pos (Or.inl hji), spawn_eat_step]
        subst hji
        exact Function.update_same _ _ _
      · rw [if_neg (by tauto), spawn_eat_step]
        exact Function.update_noteq hji _ _

lemma foldl_eat_step (pid : Nat) (idxs : List Nat) :
    ∀ st : ResState,
      (idxs.foldl (eat_step pid) st).world.snake_parts = st.world.snake_parts ∧
      ∀ j, (idxs.foldl (eat_step pid) st).world.foods j =
        if j ∈ idxs then 0 else st.world.foods j := by
  induction idxs with
  | nil => intro st; exact ⟨rfl, fun j => by simp⟩
  | cons i idxs ih =>
    intro st
    rw [List.foldl_cons]
    refine ⟨(ih _).1, fun j => ?_⟩
    rw [(ih _).2 j]
    by_cases hj : j ∈ idxs
    · simp [hj]
    · rw [if_neg hj]
      simp only [List.mem_cons]
      by_cases hji : j = i
      · rw [if_pos (Or.inl hji), eat_step]
        subst hji
        exact Function.update_same _ _ _
      · rw [if_neg (by tauto), eat_step]
        exact Function.update_noteq hji _ _

lemma inv_stamp_cell (W H : Nat) (sp f : Nat → Nat) (p : Nat × Nat)
    (hp : sfInRange W H p) (id : Nat) (f' : Nat → Nat)
    (hf' : ∀ j, f' j = if j ∈ sf_to_ff_index W p then 0 else f j)
    (hinv : FoodSnakeInv W H ⟨sp, f⟩) :
    FoodSnakeInv W H ⟨Function.update sp (sfield_index W p) id, f'⟩ := by
  intro x y a b hx hy ha hb hocc
  simp only at hocc ⊢
  rw [hf']
  by_cases hxy : (x, y) = p
  · rw [if_pos]
    rw [← hxy, mem_sf_to_ff_index]
    exact ⟨a, b, ha, hb, rfl⟩
  · rw [if_neg]
    · have hne : sfield_index W (x, y) ≠ sfield_index W p :=
        fun h => hxy (sfield_index_inj W H _ _ ⟨hx, hy⟩ hp h)
      rw [Function.update_noteq hne] at hocc
      exact hinv x y a b hx hy ha hb hocc
    · apply sf_to_ff_disjoint W H (x, y) p ⟨hx, hy⟩ hp hxy
      rw [mem_sf_to_ff_index]
      exact ⟨a, b, ha, hb, rfl⟩

lemma spawn_fold_inv (W H : Nat) (id : Nat) :
    ∀ (parts3 : List (Nat × Nat)) (ac : World × Nat),
      (∀ p ∈ parts3, sfInRange W H p) → FoodSnakeInv W H ac.1 →
      FoodSnakeInv W H (parts3.foldl (spawn_part_step W id) ac).1 := by
  intro parts3
  induction parts3 with
  | nil => intro ac _ hinv; exact hinv
  | cons p ps ih =>
    intro ac hrange hinv
    rw [List.foldl_cons]
    apply ih _ (fun q hq => hrange q (List.mem_cons_of_mem _ hq))
    unfold spawn_part_step
    obtain ⟨hsnake, hfoods⟩ := foldl_spawn_eat (sf_to_ff_index W p) ac
    simp only
    rw [hsnake]
    exact inv_stamp_cell W H ac.1.snake_parts ac.1.foods p
      (hrange p (List.mem_cons_self _ _)) id _ hfoods hinv

lemma resolve_cell_inv (W H : Nat) (st : ResState) (field : Nat × Nat)
    (ids : List Nat) (hfield : sfInRange W H field)
    (hinv : FoodSnakeInv W H st.world) :
    FoodSnakeInv W H (resolve_cell W st field ids).world := by
  unfold resolve_cell
  by_cases h1 : 1 < ids.length
  · rw [if_pos h1]
    exact hinv
  · rw [if_neg h1]
    by_cases h2 : st.world.snake_parts (sfield_index W field) ≠ 0
    · rw [if_pos h2]
      exact hinv
    · rw [if_neg h2]
      obtain ⟨hsnake, hfoods⟩ := foldl_eat_step ids.headI (sf_to_ff_index W field) st
      unfold eat_at
      simp only
      rw [hsnake]
      exact inv_stamp_cell W H st.world.snake_parts st.world.foods field hfield
        ids.headI _ hfoods hinv

lemma trim_tail_cell_inv (W H : Nat) (w : World) (pos : Nat × Nat)
    (hinv : FoodSnakeInv W H w) :
    FoodSnakeInv W H (trim_tail_cell W w pos) := by
  intro x y a b hx hy ha hb hocc
  unfold trim_tail_cell at hocc ⊢
  simp only at hocc ⊢
  by_cases hj : sfield_index W (x, y) = sfield_index W pos
  · rw [hj, Function.update_same] at hocc
    exact absurd rfl hocc
  · rw [Function.update_noteq hj] at hocc
    exact hinv x y a b hx hy ha hb hocc

lemma drop_food_on_tail_inv (W H : Nat) (w : World) (pos : Nat × Nat) (r : Nat)
    (hpos : sfInRange W H pos)
    (hempty : w.snake_parts (sfield_index W pos) = 0)
    (hinv : FoodSnakeInv W H w) :
    FoodSnakeInv W H (drop_food_on_tail W w pos r) := by
  have hmem : (sf_to_ff_index W pos).getD (r % 4) 0 ∈ sf_to_ff_index W pos := by
    have hlt : r % 4 < (sf_to_ff_index W pos).length := by
      have : (sf_to_ff_index W pos).length = 4 := rfl
      rw [this]
      omega
    rw [List.getD_eq_get _ _ hlt]
    exact List.get_mem _ _ _
  intro x y a b hx hy ha hb hocc
  unfold drop_food_on_tail at hocc ⊢
  simp only at hocc ⊢
  by_cases hxy : (x, y) = pos
  · rw [hxy] at hocc
    exact absurd hempty hocc
  · have hne : ffield_index W (2 * x + a, 2 * y + b) ≠
        (sf_to_ff_index W pos).getD (r % 4) 0 := by
      intro h
      apply sf_to_ff_disjoint W H (x, y) pos ⟨hx, hy⟩ hpos hxy
        (ffield_index W (2 * x + a, 2 * y + b))
      · rw [mem_sf_to_ff_index]
        exact ⟨a, b, ha, hb, rfl⟩
      · rw [h]
        exact hmem
    rw [Function.update_noteq hne]
    exact hinv x y a b hx hy ha hb hocc

lemma add_food_times_sound (W H : Nat) (starts : Nat → Nat × Nat)
    (hW : 1 ≤ W) (hH : 1 ≤ H) (hstarts : ∀ n, ffInRange W H (starts n)) :
    ∀ n (w w' : World), add_food_times W H starts n w = some w' →
      FoodSnakeInv W H w →
      FoodSnakeInv W H w' ∧ w'.snake_parts = w.snake_parts := by
  intro n
  induction n with
  | zero =>
    intro w w' h hinv
    simp [add_food_times] at h
    exact h ▸ ⟨hinv, rfl⟩
  | succ n ih =>
    intro w w' h hinv
    rw [add_food_times] at h
    cases hadd : add_food W H w (starts n) with
    | none => rw [hadd] at h; simp at h
    | some w1 =>
      rw [hadd] at h
      simp only at h
      obtain ⟨pos, hrange, hvalid, hform⟩ :=
        add_food_some_form W H w (starts n) w1 hW hH (hstarts n) hadd
      have hinv1 : FoodSnakeInv W H w1 := by
        rw [hform]
        exact add_food_inv W H w pos hrange hvalid hinv
      obtain ⟨hinvf, hsp⟩ := ih w1 w' h hinv1
      refine ⟨hinvf, ?_⟩
      rw [hsp, hform]

lemma remove_snake_inv (W H : Nat) (starts : Nat → Nat × Nat) (w : World)
    (score : Nat) (parts : List (Nat × Nat)) (w' : World)
    (hW : 1 ≤ W) (hH : 1 ≤ H) (hstarts : ∀ n, ffInRange W H (starts n))
    (hrange : ∀ p ∈ parts, sfInRange W H p)
    (hrun : remove_snake W H starts w score parts = some w')
    (hinv : FoodSnakeInv W H w) :
    FoodSnakeInv W H w' := by
  have hrange_used : ∀ p ∈ parts.take (calc_length score), sfInRange W H p :=
    fun p hp => hrange p (List.take_subset _ _ hp)
  have hinv1 : FoodSnakeInv W H
      (remove_snake_foods W w (parts.take (calc_length score))
        (score_to_foods score)) := by
    intro x y a b hx hy ha hb hocc1
    rw [remove_snake_foods_snake] at hocc1
    by_cases hmem : sfield_index W (x, y) ∈
        (parts.take (calc_length score)).map (sfield_index W)
    · rw [if_pos hmem] at hocc1
      exact absurd rfl hocc1
    · rw [if_neg hmem] at hocc1
      have hdisj : ∀ p ∈ parts.take (calc_length score),
          ffield_index W (2 * x + a, 2 * y + b) ∉ sf_to_ff_index W p := by
        intro p hp
        have hxyp : (x, y) ≠ p := by
          intro h
          exact hmem (List.mem_map_of_mem _ (h ▸ hp))
        apply sf_to_ff_disjoint W H (x, y) p ⟨hx, hy⟩ (hrange_used p hp) hxyp
        rw [mem_sf_to_ff_index]
        exact ⟨a, b, ha, hb, rfl⟩
      rw [remove_snake_foods_foods_notmem _ _ _ _ _ hdisj]
      exact hinv x y a b hx hy ha hb hocc1
  unfold remove_snake at hrun
  cases hadd : add_food_times W H starts
      ((score_to_foods score).drop
        (4 * (parts.take (calc_length score)).length)).sum
      (remove_snake_foods W w (parts.take (calc_length score))
        (score_to_foods score)) with
  | none => rw [hadd] at hrun; simp at hrun
  | some w2 =>
    rw [hadd] at hrun
    simp only [Option.some.injEq] at hrun
    obtain ⟨hinv2, _⟩ := add_food_times_sound W H starts hW hH hstarts _ _ w2 hadd hinv1
    rw [← hrun]
    intro x y a b hx hy ha hb hocc1
    simp only at hocc1 ⊢
    rw [clear_parts_eq] at hocc1
    by_cases hmem : sfield_index W (x, y) ∈
        (parts.drop (calc_length score)).map (sfield_index W)
    · rw [if_pos hmem] at hocc1
      exact absurd rfl hocc1
    · rw [if_neg hmem] at hocc1
      exact hinv2 x y a b hx hy ha hb hocc1

lemma is_opposite_of_self_false (d : Direction) : (d.is_opposite_of d) = false := by
  cases d <;> rfl

lemma is_opposite_of_symm (d e : Direction) :
    d.is_opposite_of e = e.is_opposite_of d := by
  cases d <;> cases e <;> rfl

lemma from_byte_down (b : Nat) (hb : 3 ≤ b) :
    Direction.from_byte b = Direction.Down := by
  obtain ⟨n, rfl⟩ : ∃ n, b = n + 3 := ⟨b - 3, by omega⟩
  rfl

lemma process_message_dir (p : Player) (bytes : List Nat) :
    ((process_message p bytes).direction = p.direction ∨
      ((process_message p bytes).direction.is_opposite_of p.last_direction) = false) ∧
    (process_message p bytes).last_direction = p.last_direction := by
  unfold process_message
  by_cases h1 : bytes.length = 2 ∧ bytes.headI = MAGIC_NET_CHANGE_DIRECTION
  · rw [if_pos h1]
    by_cases h2 : (Direction.from_byte (bytes.getD 1 0)).is_opposite_of
        p.last_direction = true
    · rw [if_pos h2]
      have h3 : ¬(bytes.length = 1 ∧ bytes.headI = MAGIC_NET_TOGGLE_FAST) := by
        intro hc
        omega
      rw [if_neg h3]
      exact ⟨Or.inl rfl, rfl⟩
    · rw [if_neg h2]
      have h3 : ¬(bytes.length = 1 ∧ bytes.headI = MAGIC_NET_TOGGLE_FAST) := by
        intro hc
        omega
      rw [if_neg h3]
      exact ⟨Or.inr (by simpa using h2), rfl⟩
  · rw [if_neg h1]
    by_cases h3 : bytes.length = 1 ∧ bytes.headI = MAGIC_NET_TOGGLE_FAST
    · rw [if_pos h3]
      by_cases h4 : p.score = 0
      · rw [if_pos h4]
        exact ⟨Or.inl rfl, rfl⟩
      · rw [if_neg h4]
        exact ⟨Or.inl rfl, rfl⟩
    · rw [if_neg h3]
      exact ⟨Or.inl rfl, rfl⟩

lemma drain_input_no_reverse (msgs : List (List Nat)) :
    ∀ p : Player, (p.direction.is_opposite_of p.last_direction) = false →
      ((drain_input p msgs).direction.is_opposite_of p.last_direction) = false ∧
      (drain_input p msgs).last_direction = p.last_direction := by
  induction msgs with
  | nil => intro p h; exact ⟨h, rfl⟩
  | cons m ms ih =>
    intro p h
    obtain ⟨hd, hl⟩ := process_message_dir p m
    have h' : ((process_message p m).direction.is_opposite_of
        (process_message p m).last_direction) = false := by
      rw [hl]
      rcases hd with he | hf
      · rw [he]; exact h
      · exact hf
    obtain ⟨ih1, ih2⟩ := ih (process_message p m) h'
    unfold drain_input at ih1 ih2 ⊢
    rw [List.foldl_cons]
    rw [hl] at ih1 ih2
    exact ⟨ih1, ih2⟩

lemma move_snake_ctl_dirs (p : Player) :
    (move_snake_ctl p).1.last_direction = p.direction ∧
    (move_snake_ctl p).1.direction = p.direction := by
  unfold move_snake_ctl
  obtain ⟨f1, _, _, _⟩ := fast_off_check_fields p
  obtain ⟨g1, g2, _, _⟩ := fold_last_direction_fields (fast_off_check p)
  obtain ⟨b1, b2, _, _⟩ := burn_score_fields (fold_last_direction (fast_off_check p))
  constructor
  · simp only
    rw [b2, g2, f1]
  · simp only
    rw [b1, g1, f1]

lemma move_snake_ctl_fast_off (p : Player) (hf : p.fast_mode = true)
    (hs : p.score < 1) :
    (move_snake_ctl p).1.fast_mode = false ∧
    (move_snake_ctl p).1.score = p.score ∧
    (move_snake_ctl p).2 = 1 := by
  unfold move_snake_ctl
  obtain ⟨_, _, f3, f4⟩ := fast_off_check_fields p
  obtain ⟨_, _, g3, g4⟩ := fold_last_direction_fields (fast_off_check p)
  obtain ⟨_, _, b3, b4⟩ := burn_score_fields (fold_last_direction (fast_off_check p))
  have hoff : (fast_off_check p).fast_mode = false := by
    rw [f4, hf]
    simpa using hs
  refine ⟨?_, ?_, ?_⟩
  · simp only
    rw [b4, g4, hoff]
  · simp only
    rw [b3, g4, hoff, if_neg (by simp), g3, f3]
  · simp only
    rw [hoff]
    simp

lemma move_snake_ctl_burn (p : Player) (hf : p.fast_mode = true)
    (hs : 1 ≤ p.score) :
    (move_snake_ctl p).1.score + 1 = p.score ∧
    (move_snake_ctl p).1.fast_mode = true ∧
    (move_snake_ctl p).2 = 2 := by
  unfold move_snake_ctl
  obtain ⟨_, _, f3, f4⟩ := fast_off_check_fields p
  obtain ⟨_, _, g3, g4⟩ := fold_last_direction_fields (fast_off_check p)
  obtain ⟨_, _, b3, b4⟩ := burn_score_fields (fold_last_direction (fast_off_check p))
  have hon : (fast_off_check p).fast_mode = true := by
    rw [f4, hf]
    simp
    omega
  refine ⟨?_, ?_, ?_⟩
  · simp only
    rw [b3, g4, hon, if_pos rfl, g3, f3]
    omega
  · simp only
    rw [b4, g4, hon]
  · simp only
    rw [hon]
    simp

lemma toggle_ignored_at_zero (p : Player) (h : p.score = 0) :
    process_message p [MAGIC_NET_TOGGLE_FAST] = p := by
  unfold process_message
  norm_num [MAGIC_NET_TOGGLE_FAST, MAGIC_NET_CHANGE_DIRECTION, h]

/-- Claim C1 as stated is false: calc_length applies no clamp at 3; at score 0 it
returns ceil(sqrt 0) = 0, which is below 3. -/
theorem claim_C1_counterexample : calc_length 0 = 0 ∧ ¬ 3 ≤ calc_length 0 := by
  have h0 : calc_length 0 = 0 := by
    unfold calc_length
    rw [Nat.sqrt_zero]
    norm_num
  rw [h0]
  omega

/-- Claim C1 (amended): calc_length(s) is exactly the ceiling of the real square
root of s — the least k with s ≤ k*k — with no clamping (so calc_length 0 = 0 and
calc_length 1 = 1).  The at-least-3-parts guarantee lives elsewhere: the movement
resolver's tail trim pops ((len-3) as u16).saturating_sub(calc_length score) parts,
which never brings a snake that has at least 3 parts below 3 parts. -/
theorem claim_C1_amended (s len : Nat) (hlen : 3 ≤ len) (hbound : len - 3 < 65536) :
    s ≤ calc_length s * calc_length s ∧
    (∀ k, s ≤ k * k → calc_length s ≤ k) ∧
    3 ≤ len - tail_trim_count len s := by
  refine ⟨calc_length_le_sq s, fun k hk => calc_length_le_of_le_sq s k hk, ?_⟩
  unfold tail_trim_count
  omega

/-- Witness for claim C1 (amended) at score 5 and 10 parts. -/
theorem claim_C1_witness : 3 ≤ 10 - tail_trim_count 10 5 :=
  (claim_C1_amended 5 10 (by omega) (by omega)).2.2

/-- Claim C2: for every 16-bit score, score_to_foods returns exactly
calc_length(score) * 4 amounts produced by the ceiling-division greedy, every
amount fits an unsigned byte without truncation (indeed stays at or below 64, so
the u8 cast in the source is exact), and the amounts sum to exactly the score. -/
theorem claim_C2 (s : Nat) (hs : s < 65536) :
    (score_to_foods s).length = calc_length s * 4 ∧
    (∀ a ∈ score_to_foods s, a ≤ 255) ∧
    (score_to_foods s).sum = s :=
  ⟨score_to_foods_length s,
   fun a ha => le_trans (score_to_foods_mem_le s hs a ha) (by omega),
   score_to_foods_sum s⟩

/-- Witness for claim C2 at score 10. -/
theorem claim_C2_witness :
    (score_to_foods 10).length = calc_length 10 * 4 ∧
    (∀ a ∈ score_to_foods 10, a ≤ 255) ∧
    (score_to_foods 10).sum = 10 :=
  claim_C2 10 (by omega)

/-- Claim C10: direction decoding is total over all byte values — 0, 1, 2 decode to
Left, Up, Right and every byte at or above 3 decodes to Down — and a
CHANGE_DIRECTION frame with an out-of-range payload byte is processed exactly like
a turn to Down (subject to the 180-degree rule), never rejected. -/
theorem claim_C10 :
    Direction.from_byte 0 = Direction.Left ∧
    Direction.from_byte 1 = Direction.Up ∧
    Direction.from_byte 2 = Direction.Right ∧
    (∀ b : Nat, 3 ≤ b → Direction.from_byte b = Direction.Down) ∧
    (∀ (p : Player) (b : Nat), 3 ≤ b →
      process_message p [MAGIC_NET_CHANGE_DIRECTION, b] =
        process_message p [MAGIC_NET_CHANGE_DIRECTION, 3]) := by
  refine ⟨rfl, rfl, rfl, from_byte_down, ?_⟩
  intro p b hb
  unfold process_message
  rw [show [MAGIC_NET_CHANGE_DIRECTION, b].getD 1 0 = b from rfl,
    show [MAGIC_NET_CHANGE_DIRECTION, (3 : Nat)].getD 1 0 = 3 from rfl,
    from_byte_down b hb, from_byte_down 3 (by omega)]
  rfl

/-- Witness for claim C10 at payload byte 200. -/
theorem claim_C10_witness : Direction.from_byte 200 = Direction.Down :=
  claim_C10.2.2.2.1 200 (by omega)

/-- Claim C6: the direction used for movement in a tick is never the opposite of
last_direction from the previous tick.  Every CHANGE_DIRECTION frame is compared
against last_direction (unchanged during the drain, so two reversals in one tick
cannot combine), an opposite direction is silently ignored, and the movement step
copies the used direction into last_direction, re-establishing the invariant. -/
theorem claim_C6 (p : Player) (msgs : List (List Nat))
    (hinv : (p.direction.is_opposite_of p.last_direction) = false) :
    ((drain_input p msgs).direction.is_opposite_of p.last_direction) = false ∧
    (drain_input p msgs).last_direction = p.last_direction ∧
    (∀ b : Nat, ((Direction.from_byte b).is_opposite_of p.last_direction) = true →
      (process_message p [MAGIC_NET_CHANGE_DIRECTION, b]).direction = p.direction) ∧
    (move_snake_ctl (drain_input p msgs)).1.last_direction =
      (drain_input p msgs).direction ∧
    ((move_snake_ctl (drain_input p msgs)).1.direction.is_opposite_of
      (move_snake_ctl (drain_input p msgs)).1.last_direction) = false := by
  obtain ⟨h1, h2⟩ := drain_input_no_reverse msgs p hinv
  obtain ⟨m1, m2⟩ := move_snake_ctl_dirs (drain_input p msgs)
  refine ⟨h1, h2, ?_, m1, ?_⟩
  · intro b hb
    unfold process_message
    rw [if_pos (⟨rfl, rfl⟩ :
      [MAGIC_NET_CHANGE_DIRECTION, b].length = 2 ∧
        [MAGIC_NET_CHANGE_DIRECTION, b].headI = MAGIC_NET_CHANGE_DIRECTION)]
    rw [show [MAGIC_NET_CHANGE_DIRECTION, b].getD 1 0 = b from rfl, if_pos hb]
    rw [if_neg (by intro hc; simp at hc)]
  · rw [m1, m2]
    exact is_opposite_of_self_false _

/-- Witness for claim C6: a snake facing Right that requests Left (byte 0, the
opposite) keeps moving Right. -/
theorem claim_C6_witness :
    ((drain_input ⟨"w", Direction.Right, Direction.Right, [], 0, 0, false⟩
      [[MAGIC_NET_CHANGE_DIRECTION, 0]]).direction.is_opposite_of
        Direction.Right) = false :=
  (claim_C6 ⟨"w", Direction.Right, Direction.Right, [], 0, 0, false⟩
    [[MAGIC_NET_CHANGE_DIRECTION, 0]] (by decide)).1

/-- Claim C7 is refuted end-to-end by the code at this failing input: snake 1 with
parts [(0,0), (1,0), (2,0)] facing Right on an 8-by-8 world, score 3, fast mode
just enabled.  The movement tick burns the score to 2 and schedules 2 sub-steps as
the claim expects, but both sub-step head claims are computed from the un-advanced
parts.back(), so the snake claims cell (3, 0) twice; the two-or-more-claimants rule
then crashes it (pushing its id twice, with no kill credit) on its very first fast
tick, and the duplicated id makes the death loop's stream lookup panic.  The
claimed 3, 2, 1, 0 run over three ticks is therefore unreachable in the program. -/
theorem claim_C7_eval :
    (move_snake_ctl
      ⟨"w", Direction.Right, Direction.Right, [(0, 0), (1, 0), (2, 0)], 0, 3,
        true⟩).1.score = 2 ∧
    (move_snake_ctl
      ⟨"w", Direction.Right, Direction.Right, [(0, 0), (1, 0), (2, 0)], 0, 3,
        true⟩).2 = 2 ∧
    move_intent_claims 8 8
      ⟨"w", Direction.Right, Direction.Right, [(0, 0), (1, 0), (2, 0)], 0, 3,
        true⟩ = [(3, 0), (3, 0)] ∧
    resolve_cell 8
      ⟨⟨fun _ => 0, fun _ => 0⟩,
        fun _ => ⟨"w", Direction.Right, Direction.Right, [], 0, 0, false⟩, []⟩
      (3, 0) [1, 1] =
      ⟨⟨fun _ => 0, fun _ => 0⟩,
        fun _ => ⟨"w", Direction.Right, Direction.Right, [], 0, 0, false⟩,
        [1, 1]⟩ ∧
    death_loop [1] [1, 1] = none := by
  refine ⟨by decide, by decide, by decide, rfl, rfl⟩

/-- Claim C5: in the resolution phase, a cell claimed by two or more snakes crashes
every claimant with no kill credit (world and players untouched); a cell claimed by
exactly one snake but already occupied in the snake grid crashes the sole claimant,
and the occupier's kills counter rises by exactly 1 precisely when the occupier's id
differs from the claimant's (all other players untouched, and untouched entirely on
a self-crash). -/
theorem claim_C5 (W : Nat) (st : ResState) (field : Nat × Nat) (ids : List Nat)
    (i : Nat) :
    (2 ≤ ids.length →
      resolve_cell W st field ids = { st with crashed := st.crashed ++ ids }) ∧
    (ids = [i] → st.world.snake_parts (sfield_index W field) ≠ 0 →
      (resolve_cell W st field ids).crashed = st.crashed ++ [i] ∧
      (resolve_cell W st field ids).world = st.world ∧
      (st.world.snake_parts (sfield_index W field) ≠ i →
        ((resolve_cell W st field ids).players
            (st.world.snake_parts (sfield_index W field))).kills =
          (st.players (st.world.snake_parts (sfield_index W field))).kills + 1 ∧
        (∀ j, j ≠ st.world.snake_parts (sfield_index W field) →
          (resolve_cell W st field ids).players j = st.players j)) ∧
      (st.world.snake_parts (sfield_index W field) = i →
        (resolve_cell W st field ids).players = st.players)) := by
  constructor
  · intro h2
    unfold resolve_cell
    rw [if_pos (by omega : 1 < ids.length)]
  · intro hids hocc
    subst hids
    unfold resolve_cell
    rw [if_neg (by simp : ¬ 1 < ([i] : List Nat).length), if_pos hocc]
    dsimp only
    refine ⟨rfl, rfl, ?_, ?_⟩
    · intro hne
      have hne' : st.world.snake_parts (sfield_index W field) ≠
          ([i] : List Nat).headI := hne
      rw [if_pos hne']
      exact ⟨by rw [Function.update_same],
        fun j hj => by rw [Function.update_noteq hj]⟩
    · intro heq
      have heq' : ¬ st.world.snake_parts (sfield_index W field) ≠
          ([i] : List Nat).headI := by
        simpa using heq
      rw [if_neg heq']

/-- Witness for claim C5: on a 1-by-1 world whose single cell is held by snake 2,
the sole claimant 1 crashes into it and snake 2 is credited exactly one kill. -/
theorem claim_C5_witness :
    ((resolve_cell 1
        ⟨⟨fun _ => 2, fun _ => 0⟩,
          fun _ => ⟨"w", Direction.Left, Direction.Left, [], 0, 0, false⟩, []⟩
        (0, 0) [1]).players 2).kills = 1 :=
  (((claim_C5 1
      ⟨⟨fun _ => 2, fun _ => 0⟩,
        fun _ => ⟨"w", Direction.Left, Direction.Left, [], 0, 0, false⟩, []⟩
      (0, 0) [1] 1).2 rfl (by decide)).2.2.1 (by decide)).1

/-- Claim C9: whenever some food sub-cell lies under an empty snake cell and holds
an amount below 255, the add_food walk (random start, raster advance with wrap)
terminates and increments exactly one valid sub-cell by 1, leaving every other food
sub-cell and the entire snake grid unchanged. -/
theorem claim_C9 (W H : Nat) (w : World) (start : Nat × Nat)
    (hW : 1 ≤ W) (hH : 1 ≤ H) (hstart : ffInRange W H start)
    (hex : ∃ p, ffInRange W H p ∧ food_pos_valid W w p = true) :
    ∃ w' pos, add_food W H w start = some w' ∧
      ffInRange W H pos ∧ food_pos_valid W w pos = true ∧
      w'.foods (ffield_index W pos) = w.foods (ffield_index W pos) + 1 ∧
      (∀ j, j ≠ ffield_index W pos → w'.foods j = w.foods j) ∧
      w'.snake_parts = w.snake_parts ∧
      totalFood W H w'.foods = totalFood W H w.foods + 1 := by
  obtain ⟨q, hwalk, hvq, hrq⟩ := add_food_walk_total W H w hW hH start hstart hex
  refine ⟨{ w with
      foods := Function.update w.foods (ffield_index W q)
        (w.foods (ffield_index W q) + 1) }, q, ?_, hrq, hvq, ?_, ?_, rfl, ?_⟩
  · unfold add_food
    rw [hwalk]
  · simp only
    rw [Function.update_same]
  · intro j hj
    simp only
    rw [Function.update_noteq hj]
  · simp only
    have := totalFood_update W H w.foods (ffield_index W q)
      (w.foods (ffield_index W q) + 1) (ffield_index_lt W H q hrq)
    omega

/-- Witness for claim C9: an empty 1-by-1 world accepts a food unit. -/
theorem claim_C9_witness :
    ∃ w' pos, add_food 1 1 ⟨fun _ => 0, fun _ => 0⟩ (0, 0) = some w' ∧
      ffInRange 1 1 pos ∧ food_pos_valid 1 ⟨fun _ => 0, fun _ => 0⟩ pos = true ∧
      w'.foods (ffield_index 1 pos) =
        (⟨fun _ => 0, fun _ => 0⟩ : World).foods (ffield_index 1 pos) + 1 ∧
      (∀ j, j ≠ ffield_index 1 pos →
        w'.foods j = (⟨fun _ => 0, fun _ => 0⟩ : World).foods j) ∧
      w'.snake_parts = (⟨fun _ => 0, fun _ => 0⟩ : World).snake_parts ∧
      totalFood 1 1 w'.foods =
        totalFood 1 1 (⟨fun _ => 0, fun _ => 0⟩ : World).foods + 1 :=
  claim_C9 1 1 ⟨fun _ => 0, fun _ => 0⟩ (0, 0) (by omega) (by omega) (by decide)
    ⟨(0, 0), by decide, by decide⟩

/-- Claim C4: food-snake disjointness is preserved by every world-mutating
operation: food placement (add_food), spawning (spawn_eat_parts), the movement
resolution including eating (resolve_cell), the tail trim with its fast-mode food
drop, and snake removal on death (remove_snake). -/
theorem claim_C4 (W H : Nat) (hW : 1 ≤ W) (hH : 1 ≤ H) :
    (∀ (w : World) (start : Nat × Nat) (w' : World), ffInRange W H start →
      add_food W H w start = some w' → FoodSnakeInv W H w → FoodSnakeInv W H w') ∧
    (∀ (w : World) (id : Nat) (parts3 : List (Nat × Nat)),
      (∀ p ∈ parts3, sfInRange W H p) → FoodSnakeInv W H w →
      FoodSnakeInv W H (spawn_eat_parts W id parts3 w).1) ∧
    (∀ (st : ResState) (field : Nat × Nat) (ids : List Nat), sfInRange W H field →
      FoodSnakeInv W H st.world →
      FoodSnakeInv W H (resolve_cell W st field ids).world) ∧
    (∀ (w : World) (pos : Nat × Nat) (r : Nat), sfInRange W H pos →
      FoodSnakeInv W H w →
      FoodSnakeInv W H (trim_tail_cell W w pos) ∧
      FoodSnakeInv W H (drop_food_on_tail W (trim_tail_cell W w pos) pos r)) ∧
    (∀ (starts : Nat → Nat × Nat) (w : World) (score : Nat)
        (parts : List (Nat × Nat)) (w' : World),
      (∀ n, ffInRange W H (starts n)) → (∀ p ∈ parts, sfInRange W H p) →
      remove_snake W H starts w score parts = some w' →
      FoodSnakeInv W H w → FoodSnakeInv W H w') := by
  refine ⟨?_, ?_, ?_, ?_, ?_⟩
  · intro w start w' hstart hrun hinv
    obtain ⟨pos, hrange, hvalid, hform⟩ :=
      add_food_some_form W H w start w' hW hH hstart hrun
    rw [hform]
    exact add_food_inv W H w pos hrange hvalid hinv
  · intro w id parts3 hr hinv
    exact spawn_fold_inv W H id parts3 (w, 0) hr hinv
  · intro st field ids hf hinv
    exact resolve_cell_inv W H st field ids hf hinv
  · intro w pos r hpos hinv
    have ht := trim_tail_cell_inv W H w pos hinv
    refine ⟨ht, ?_⟩
    apply drop_food_on_tail_inv W H _ pos r hpos _ ht
    unfold trim_tail_cell
    simp only
    rw [Function.update_same]
  · intro starts w score parts w' hstarts hrangep hrun hinv
    exact remove_snake_inv W H starts w score parts w' hW hH hstarts hrangep
      hrun hinv

/-- Witness for claim C4: trimming the single cell of an empty 1-by-1 world
preserves the disjointness invariant. -/
theorem claim_C4_witness :
    FoodSnakeInv 1 1 (trim_tail_cell 1 ⟨fun _ => 0, fun _ => 0⟩ (0, 0)) :=
  ((claim_C4 1 1 (by omega) (by omega)).2.2.2.1 ⟨fun _ => 0, fun _ => 0⟩ (0, 0) 0
    (by decide) (fun _ _ _ _ _ _ _ _ h => absurd rfl h)).1

/-- Claim C3: under the food-snake disjointness invariant, removing a dead or
disconnected snake with score s raises the total food in the food grid by exactly
s — four amounts written under each of the first calc_length(s) parts plus any
leftover units dropped through the global placement routine — so total food plus
the sum of alive-snake scores is unchanged across the death. -/
theorem claim_C3 (W H : Nat) (starts : Nat → Nat × Nat) (w : World)
    (score : Nat) (parts : List (Nat × Nat)) (others : List Nat)
    (hW : 1 ≤ W) (hH : 1 ≤ H) (hstarts : ∀ n, ffInRange W H (starts n))
    (hrange : ∀ p ∈ parts, sfInRange W H p) (hnodup : parts.Nodup)
    (hinv : FoodSnakeInv W H w)
    (hocc : ∀ p ∈ parts.take (calc_length score),
      w.snake_parts (sfield_index W p) ≠ 0)
    (hcap : ((score_to_foods score).drop
        (4 * (parts.take (calc_length score)).length)).sum ≤
      spareCapacity W H (remove_snake_foods W w (parts.take (calc_length score))
        (score_to_foods score))) :
    ∃ w', remove_snake W H starts w score parts = some w' ∧
      totalFood W H w'.foods = totalFood W H w.foods + score ∧
      totalFood W H w'.foods + others.sum =
        totalFood W H w.foods + (score :: others).sum := by
  obtain ⟨w', hrun, htot, _⟩ := remove_snake_spec W H starts w score parts hW hH
    hstarts hrange hnodup hinv hocc hcap
  refine ⟨w', hrun, htot, ?_⟩
  rw [htot, List.sum_cons]
  ring

/-- Witness for claim C3: a 1-by-1 world fully occupied by a snake of score 1;
its removal turns the score into exactly one food unit. -/
theorem claim_C3_witness :
    ∃ w', remove_snake 1 1 (fun _ => (0, 0)) ⟨fun _ => 1, fun _ => 0⟩ 1 [(0, 0)]
        = some w' ∧
      totalFood 1 1 w'.foods =
        totalFood 1 1 (⟨fun _ => 1, fun _ => 0⟩ : World).foods + 1 ∧
      totalFood 1 1 w'.foods + ([] : List Nat).sum =
        totalFood 1 1 (⟨fun _ => 1, fun _ => 0⟩ : World).foods
          + ((1 : Nat) :: []).sum := by
  have hc1 : calc_length 1 = 1 := by
    unfold calc_length
    rw [Nat.sqrt_one]
    norm_num
  apply claim_C3 1 1 (fun _ => (0, 0)) ⟨fun _ => 1, fun _ => 0⟩ 1 [(0, 0)] []
    (by omega) (by omega) (fun _ => show ffInRange 1 1 (0, 0) by decide)
    (by decide) (by decide) (fun _ _ _ _ _ _ _ _ _ => rfl)
  · simp only [hc1]
    decide
  · simp only [hc1, score_to_foods, foodsGreedy]
    norm_num [foodsGreedy]

/-- Claim C8 evaluation: on a stream where only the length prefix of a frame has
arrived (prefix byte 1, payload byte still in flight), read_from_stream surfaces
WouldBlock but has consumed the prefix — nothing remains available; when the
payload byte 7 later arrives the reader misparses it as a fresh length prefix,
whereas the unsplit stream [1, 7] delivers the frame [7].  So a WouldBlock during
drain does consume bytes, contradicting the claim. -/
theorem claim_C8_eval :
    read_from_stream [1] = (Except.error ErrKind.wouldBlock, ([] : List Nat)) ∧
    ([] : List Nat) ≠ [1] ∧
    read_from_stream ([] ++ [7]) =
      (Except.error ErrKind.wouldBlock, ([] : List Nat)) ∧
    read_from_stream [1, 7] = (Except.ok [7], ([] : List Nat)) := by
  refine ⟨rfl, by simp, rfl, rfl⟩

end Multisnake
